import Mathlib

/-!
# IAM policy document data source

A shallow embedding of `aws/data_source_aws_iam_policy_document.go`:
the variable substitutor, the condition and principal builders, the statement
normalisation loop of `dataSourceAwsIamPolicyDocumentRead`, and the build
pipeline (source document, generated statements, override document).  The
document model, its merge and its JSON encoding are declared outside that file
and are modelled from the spec.

Go strings are embedded as Lean strings.  The only pattern the code searches
for, `&{`, is made of two ASCII characters, so a byte-wise left-to-right
search on UTF-8 text finds exactly the character-wise occurrences.
-/

namespace IamPolicyDocument

/-! ## Values and outcomes -/

/-- A Go `interface{}` value as far as this file inspects it: a `string`, a
`[]string`, the nil interface, or a value of some other dynamic type. -/
inductive GoValue where
  | nil
  | str (s : String)
  | strs (xs : List String)
  | other
  deriving DecidableEq, Repr

/-- Outcome of a Go computation: a value, a returned `error`, or a `panic`. -/
inductive Result (α : Type) where
  | ok (a : α)
  | error (msg : String)
  | panic (msg : String)
  deriving DecidableEq, Repr

/-- Sequencing of outcomes: an error or a panic ends the computation. -/
def Result.bind {α β : Type} (r : Result α) (f : α → Result β) : Result β :=
  match r with
  | Result.ok a => f a
  | Result.error e => Result.error e
  | Result.panic p => Result.panic p

instance : Monad Result where
  pure := Result.ok
  bind := Result.bind

/-- A Go loop `for i, item := range v { body }` over a slice, with the loop
state threaded through the body; the index starts at `i`. -/
def rangeFor {α σ : Type} (body : Nat → α → σ → σ) : Nat → List α → σ → σ
  | _, [], st => st
  | i, item :: rest, st => rangeFor body (i + 1) rest (body i item st)

/-- A Go `range` loop whose body may return an error or panic, which ends the
loop at once. -/
def rangeForM {α σ : Type} (body : Nat → α → σ → Result σ) : Nat → List α → σ → Result σ
  | _, [], st => Result.ok st
  | i, item :: rest, st =>
    match body i item st with
    | Result.ok st1 => rangeForM body (i + 1) rest st1
    | Result.error e => Result.error e
    | Result.panic p => Result.panic p

/-! ## Variable substitutor -/

/-- The replacer `strings.NewReplacer("&{", "${")` on a character sequence:
scanning from the left, each match of `&{` is written out as `${` and the scan
resumes after the match; every other character is copied. -/
def replaceVarChars : List Char → List Char
  | '&' :: '{' :: rest => '$' :: '{' :: replaceVarChars rest
  | c :: rest => c :: replaceVarChars rest
  | [] => []

/-- The call `dataSourceAwsIamPolicyDocumentVarReplacer.Replace(s)`. -/
def dataSourceAwsIamPolicyDocumentVarReplacer (s : String) : String :=
  ⟨replaceVarChars s.data⟩

/-- The function `dataSourceAwsIamPolicyDocumentReplaceVarsInList`: a type
switch on the input; a `[]string` is copied slot by slot into a fresh slice of
the same length, any other dynamic type panics. -/
def dataSourceAwsIamPolicyDocumentReplaceVarsInList (v : GoValue) : Result GoValue :=
  match v with
  | GoValue.str v => Result.ok (GoValue.str (dataSourceAwsIamPolicyDocumentVarReplacer v))
  | GoValue.strs v =>
    let out := List.replicate v.length ""
    let out := rangeFor
      (fun i item out => out.set i (dataSourceAwsIamPolicyDocumentVarReplacer item)) 0 v out
    Result.ok (GoValue.strs out)
  | _ =>
    Result.panic "dataSourceAwsIamPolicyDocumentReplaceVarsInList: input not string nor []string"

/-! ## Configuration input and document model -/

/-- One entry of a `principals` or `not_principals` set of the configuration:
the map with keys `type` and `identifiers`, the latter as the list handed out
by `(*schema.Set).List()`. -/
structure CfgPrincipal where
  type : String
  identifiers : List String
  deriving DecidableEq, Repr

/-- One entry of a `condition` set of the configuration. -/
structure CfgCondition where
  test : String
  variable_ : String
  values : List String
  deriving DecidableEq, Repr

/-- One element of the `statement` list of the configuration, the map
`cfgStmt`.  The key `sid` may be missing from the map (`none`); each set field
is the list handed out by `(*schema.Set).List()`. -/
structure CfgStmt where
  sid : Option String := none
  effect : String := "Allow"
  actions : List String := []
  not_actions : List String := []
  resources : List String := []
  not_resources : List String := []
  principals : List CfgPrincipal := []
  not_principals : List CfgPrincipal := []
  condition : List CfgCondition := []
  deriving DecidableEq, Repr

/-- The record `IAMPolicyStatementPrincipal`; `Identifiers` is an
`interface{}`. -/
structure IAMPolicyStatementPrincipal where
  Type_ : String := ""
  Identifiers : GoValue := GoValue.nil
  deriving DecidableEq, Repr

/-- The record `IAMPolicyStatementCondition`; `Values` is an `interface{}`. -/
structure IAMPolicyStatementCondition where
  Test : String := ""
  Variable : String := ""
  Values : GoValue := GoValue.nil
  deriving DecidableEq, Repr

/-- The record `IAMPolicyStatement`.  The four string collections are
`interface{}` fields, unset when nil; the principal and condition sets are
slices, unset when empty.  The defaults are Go's zero values. -/
structure IAMPolicyStatement where
  Sid : String := ""
  Effect : String := ""
  Actions : GoValue := GoValue.nil
  NotActions : GoValue := GoValue.nil
  Resources : GoValue := GoValue.nil
  NotResources : GoValue := GoValue.nil
  Principals : List IAMPolicyStatementPrincipal := []
  NotPrincipals : List IAMPolicyStatementPrincipal := []
  Conditions : List IAMPolicyStatementCondition := []
  deriving DecidableEq, Repr

/-- The record `IAMPolicyDoc`. -/
structure IAMPolicyDoc where
  Version : String := ""
  Id : String := ""
  Statements : List IAMPolicyStatement := []
  deriving DecidableEq, Repr

/-- Modelled from the spec: the helper `iamPolicyDecodeConfigStringList`, which
is declared outside the data-source file.  It copies all string elements of a
configuration set into a sequence of strings, order-preserving. -/
def iamPolicyDecodeConfigStringList (lI : List String) : GoValue :=
  GoValue.strs lI

/-! ## Condition and principal builders -/

/-- The function `dataSourceAwsIamPolicyDocumentMakeConditions`: a slice of
`len(in)` zero records, slot `i` written from entry `i`. -/
def dataSourceAwsIamPolicyDocumentMakeConditions (in_ : List CfgCondition) :
    Result (List IAMPolicyStatementCondition) :=
  let out : List IAMPolicyStatementCondition := List.replicate in_.length {}
  rangeForM (fun i item out => do
    let values ← dataSourceAwsIamPolicyDocumentReplaceVarsInList
      (iamPolicyDecodeConfigStringList item.values)
    pure (out.set i { Test := item.test, Variable := item.variable_, Values := values }))
    0 in_ out

/-- The function `dataSourceAwsIamPolicyDocumentMakePrincipals`. -/
def dataSourceAwsIamPolicyDocumentMakePrincipals (in_ : List CfgPrincipal) :
    Result (List IAMPolicyStatementPrincipal) :=
  let out : List IAMPolicyStatementPrincipal := List.replicate in_.length {}
  rangeForM (fun i item out => do
    let identifiers ← dataSourceAwsIamPolicyDocumentReplaceVarsInList
      (iamPolicyDecodeConfigStringList item.identifiers)
    pure (out.set i { Type_ := item.type, Identifiers := identifiers }))
    0 in_ out

/-! ## Statement normalisation (the loop of `dataSourceAwsIamPolicyDocumentRead`) -/

/-- The error returned on a repeated sid. -/
def duplicateSidError (sid : String) : String :=
  "Found duplicate sid (" ++ sid ++
    "). Either remove the sid or ensure the sid is unique across all statements."

/-- Lines 126 to 134 of the loop body: when the key `sid` is present, fail if
the sid is in `sidMap`, otherwise store it in the statement and, when it is
not empty, enter it in `sidMap`. -/
def readSid (cfgStmt : CfgStmt) (sidMap : List String) (stmt : IAMPolicyStatement) :
    Result (IAMPolicyStatement × List String) :=
  match cfgStmt.sid with
  | some sid =>
    if sid ∈ sidMap then
      Result.error (duplicateSidError sid)
    else
      let stmt := { stmt with Sid := sid }
      if stmt.Sid.length > 0 then
        Result.ok (stmt, stmt.Sid :: sidMap)
      else
        Result.ok (stmt, sidMap)
  | none => Result.ok (stmt, sidMap)

/-- Lines 136 to 164 of the loop body: each of the seven collections is
stored when its list is not empty. -/
def readCollections (cfgStmt : CfgStmt) (stmt : IAMPolicyStatement) :
    Result IAMPolicyStatement := do
  let stmt :=
    if cfgStmt.actions.length > 0 then
      { stmt with Actions := iamPolicyDecodeConfigStringList cfgStmt.actions }
    else stmt
  let stmt :=
    if cfgStmt.not_actions.length > 0 then
      { stmt with NotActions := iamPolicyDecodeConfigStringList cfgStmt.not_actions }
    else stmt
  let stmt ←
    if cfgStmt.resources.length > 0 then do
      let resources ← dataSourceAwsIamPolicyDocumentReplaceVarsInList
        (iamPolicyDecodeConfigStringList cfgStmt.resources)
      pure { stmt with Resources := resources }
    else pure stmt
  let stmt ←
    if cfgStmt.not_resources.length > 0 then do
      let resources ← dataSourceAwsIamPolicyDocumentReplaceVarsInList
        (iamPolicyDecodeConfigStringList cfgStmt.not_resources)
      pure { stmt with NotResources := resources }
    else pure stmt
  let stmt ←
    if cfgStmt.principals.length > 0 then do
      let principals ← dataSourceAwsIamPolicyDocumentMakePrincipals cfgStmt.principals
      pure { stmt with Principals := principals }
    else pure stmt
  let stmt ←
    if cfgStmt.not_principals.length > 0 then do
      let principals ← dataSourceAwsIamPolicyDocumentMakePrincipals cfgStmt.not_principals
      pure { stmt with NotPrincipals := principals }
    else pure stmt
  let stmt ←
    if cfgStmt.condition.length > 0 then do
      let conditions ← dataSourceAwsIamPolicyDocumentMakeConditions cfgStmt.condition
      pure { stmt with Conditions := conditions }
    else pure stmt
  pure stmt

/-- The body of the loop over `cfgStmtIntf` (lines 120 to 167); the loop state
is `sidMap` together with the slice `stmts`. -/
def readStatement (i : Nat) (cfgStmt : CfgStmt)
    (st : List String × List IAMPolicyStatement) :
    Result (List String × List IAMPolicyStatement) := do
  let stmt : IAMPolicyStatement := { Effect := cfgStmt.effect }
  let (stmt, sidMap) ← readSid cfgStmt st.1 stmt
  let stmt ← readCollections cfgStmt stmt
  pure (sidMap, st.2.set i stmt)

/-- Lines 116 to 169: `stmts` starts as `len(cfgStmtIntf)` empty slots and
`sidMap` as the empty map; the result is the filled `stmts`. -/
def readStatements (cfgStmtIntf : List CfgStmt) : Result (List IAMPolicyStatement) := do
  let stmts : List IAMPolicyStatement := List.replicate cfgStmtIntf.length {}
  let sidMap : List String := []
  let st ← rangeForM readStatement 0 cfgStmtIntf (sidMap, stmts)
  pure st.2

/-! ## Merge -/

/-- Modelled from the spec: one step of the statement merge of
`IAMPolicyDoc.Merge`, which is declared outside the data-source file.  If the
running list already contains a statement with the same non-empty sid, that
statement is replaced in place by the incoming statement; otherwise the
incoming statement is appended to the end. -/
def mergeStatement (stmts : List IAMPolicyStatement) (newStatement : IAMPolicyStatement) :
    List IAMPolicyStatement :=
  let i := stmts.findIdx (fun s => decide (s.Sid = newStatement.Sid))
  if newStatement.Sid ≠ "" ∧ i < stmts.length then
    stmts.set i newStatement
  else
    stmts ++ [newStatement]

/-- Modelled from the spec: the method `IAMPolicyDoc.Merge`, which is declared
outside the data-source file.  A non-empty incoming id overwrites the id and
the incoming statements are merged one by one in order.  For the version the
spec has two accounts: section 4.4 says that Merge never overwrites it, while
the end-to-end scenario of section 8 expects `2012-10-17` in the output of a
build whose source document has no version.  The build writes the version on
the generated document only (line 109) and serialises the merged document
(line 186), so the version can reach the output through Merge alone: a
document without version takes the incoming version, and a version that is
already there is kept. -/
def IAMPolicyDoc.Merge (self newDoc : IAMPolicyDoc) : IAMPolicyDoc :=
  { Version := if self.Version = "" then newDoc.Version else self.Version
    Id := if newDoc.Id ≠ "" then newDoc.Id else self.Id
    Statements := newDoc.Statements.foldl mergeStatement self.Statements }

/-! ## Serialisation -/

/-- A JSON value; `other` stands for the JSON of a Go value of a dynamic type
this development does not look into. -/
inductive JSON where
  | null
  | str (s : String)
  | arr (items : List JSON)
  | obj (members : List (String × JSON))
  | other
  deriving Repr

/-- Modelled from the spec: the encoding of a string collection, which lives in
the struct tags and `MarshalJSON` methods outside the data-source file.  A
collection with exactly one element is written as a bare string, any other
sequence as an array of its strings in stored order. -/
def valueToJSON : GoValue → JSON
  | GoValue.nil => JSON.null
  | GoValue.str s => JSON.str s
  | GoValue.strs [x] => JSON.str x
  | GoValue.strs xs => JSON.arr (xs.map JSON.str)
  | GoValue.other => JSON.other

/-- Modelled from the spec: the member of one principal record, its type as key
and its identifiers as value. -/
def principalToJSON (p : IAMPolicyStatementPrincipal) : String × JSON :=
  (p.Type_, valueToJSON p.Identifiers)

/-- Modelled from the spec: the encoding of a principal set, an object with one
member per record in stored order; a single record of type `AWS` whose
identifiers are `*` is written as the bare string `*`. -/
def principalsToJSON (ps : List IAMPolicyStatementPrincipal) : JSON :=
  match ps with
  | [p] =>
    if p.Type_ = "AWS" ∧
        (p.Identifiers = GoValue.str "*" ∨ p.Identifiers = GoValue.strs ["*"]) then
      JSON.str "*"
    else JSON.obj [principalToJSON p]
  | _ => JSON.obj (ps.map principalToJSON)

/-- Modelled from the spec: the member of one condition record, the operator as
key of an object that maps the context key to the values. -/
def conditionToJSON (c : IAMPolicyStatementCondition) : String × JSON :=
  (c.Test, JSON.obj [(c.Variable, valueToJSON c.Values)])

/-- Modelled from the spec: the encoding of a condition set, one member per
record in stored order. -/
def conditionsToJSON (cs : List IAMPolicyStatementCondition) : JSON :=
  JSON.obj (cs.map conditionToJSON)

/-- Modelled from the spec: the members of a statement, present ones only, in
the order Sid, Effect, Principal, NotPrincipal, Action, NotAction, Resource,
NotResource, Condition. -/
def statementMembers (s : IAMPolicyStatement) : List (String × JSON) :=
  (if s.Sid = "" then [] else [("Sid", JSON.str s.Sid)]) ++
  (if s.Effect = "" then [] else [("Effect", JSON.str s.Effect)]) ++
  (if s.Principals = [] then [] else [("Principal", principalsToJSON s.Principals)]) ++
  (if s.NotPrincipals = [] then [] else [("NotPrincipal", principalsToJSON s.NotPrincipals)]) ++
  (if s.Actions = GoValue.nil then [] else [("Action", valueToJSON s.Actions)]) ++
  (if s.NotActions = GoValue.nil then [] else [("NotAction", valueToJSON s.NotActions)]) ++
  (if s.Resources = GoValue.nil then [] else [("Resource", valueToJSON s.Resources)]) ++
  (if s.NotResources = GoValue.nil then [] else [("NotResource", valueToJSON s.NotResources)]) ++
  (if s.Conditions = [] then [] else [("Condition", conditionsToJSON s.Conditions)])

/-- Modelled from the spec: the encoding of a statement. -/
def statementToJSON (s : IAMPolicyStatement) : JSON :=
  JSON.obj (statementMembers s)

/-- Modelled from the spec: the encoding of a document, with the members
Version, Id when it is not empty, and Statement. -/
def docToJSON (doc : IAMPolicyDoc) : JSON :=
  JSON.obj
    ([("Version", JSON.str doc.Version)] ++
     (if doc.Id = "" then [] else [("Id", JSON.str doc.Id)]) ++
     [("Statement", JSON.arr (doc.Statements.map statementToJSON))])

/-! ## The build -/

/-- The collaborators of the build that live outside the data-source file:
`json.Unmarshal` into an empty `IAMPolicyDoc`, `json.MarshalIndent` of a
document with two-space indent, and `hashcode.String`. -/
structure Codec where
  Unmarshal : String → Result IAMPolicyDoc
  MarshalIndent : IAMPolicyDoc → Result String
  hashcode : String → Int

/-- The `schema.ResourceData` of the data source: the four configuration
attributes, the computed attribute `json` and the resource id.  `GetOk` on an
attribute reports it as set when it differs from the zero value. -/
structure ResourceData where
  source_json : String := ""
  policy_id : String := ""
  statement : List CfgStmt := []
  override_json : String := ""
  json : String := ""
  id : String := ""
  deriving DecidableEq, Repr

/-- Lines 107 to 171: the document generated from `policy_id` and the
statement declarations. -/
def generatedDoc (d : ResourceData) : Result IAMPolicyDoc := do
  let doc : IAMPolicyDoc := {}
  let doc := { doc with Version := "2012-10-17" }
  let doc := if d.policy_id ≠ "" then { doc with Id := d.policy_id } else doc
  let doc ←
    if d.statement ≠ [] then do
      let stmts ← readStatements d.statement
      pure { doc with Statements := stmts }
    else pure doc
  pure doc

/-- Lines 97 to 184: the merged document before serialisation. -/
def mergedDocument (c : Codec) (d : ResourceData) : Result IAMPolicyDoc := do
  let mergedDoc : IAMPolicyDoc := {}
  let mergedDoc ←
    if d.source_json ≠ "" then c.Unmarshal d.source_json else pure mergedDoc
  let doc ← generatedDoc d
  let mergedDoc := mergedDoc.Merge doc
  let mergedDoc ←
    if d.override_json ≠ "" then do
      let overrideDoc ← c.Unmarshal d.override_json
      pure (mergedDoc.Merge overrideDoc)
    else pure mergedDoc
  pure mergedDoc

/-- The function `dataSourceAwsIamPolicyDocumentRead`: the state of `d` after
the call together with what the call returned.  The attribute `json` and the
id are written by the two calls that follow a successful `MarshalIndent`. -/
def dataSourceAwsIamPolicyDocumentRead (c : Codec) (d : ResourceData) :
    ResourceData × Result Unit :=
  match mergedDocument c d with
  | Result.error e => (d, Result.error e)
  | Result.panic p => (d, Result.panic p)
  | Result.ok mergedDoc =>
    match c.MarshalIndent mergedDoc with
    | Result.error e => (d, Result.error e)
    | Result.panic p => (d, Result.panic p)
    | Result.ok jsonString =>
      let d := { d with json := jsonString }
      let d := { d with id := toString (c.hashcode jsonString) }
      (d, Result.ok ())

/-! ## Predicates used to state the properties -/

/-- An occurrence of the two-character sequence `&{` at position `i` of a
character sequence. -/
def OccursAt (l : List Char) (i : Nat) : Prop :=
  l[i]? = some '&' ∧ l[i + 1]? = some '{'

instance (l : List Char) (i : Nat) : Decidable (OccursAt l i) := by
  unfold OccursAt; infer_instance

/-- The string contains an occurrence of `&{`. -/
def HasMarker (s : String) : Prop :=
  ∃ i, i < s.data.length ∧ OccursAt s.data i

instance (s : String) : Decidable (HasMarker s) := by
  unfold HasMarker; infer_instance

/-- The sid a declaration carries; a declaration without the key `sid`
carries the empty sid. -/
def CfgStmt.sidOf (c : CfgStmt) : String :=
  c.sid.getD ""

/-- Two declarations carry the same non-empty sid. -/
def SameSid (a b : CfgStmt) : Prop :=
  a.sidOf ≠ "" ∧ a.sidOf = b.sidOf

instance (a b : CfgStmt) : Decidable (SameSid a b) := by
  unfold SameSid; infer_instance

/-- No declaration of the batch carries the non-empty sid of an earlier one. -/
def DistinctSids (decls : List CfgStmt) : Prop :=
  decls.Pairwise (fun a b => ¬ SameSid a b)

instance (decls : List CfgStmt) : Decidable (DistinctSids decls) := by
  unfold DistinctSids; infer_instance

/-- The principal record of one raw principal entry. -/
def principalOf (p : CfgPrincipal) : IAMPolicyStatementPrincipal :=
  { Type_ := p.type
    Identifiers := GoValue.strs (p.identifiers.map dataSourceAwsIamPolicyDocumentVarReplacer) }

/-- The condition record of one raw condition entry. -/
def conditionOf (c : CfgCondition) : IAMPolicyStatementCondition :=
  { Test := c.test
    Variable := c.variable_
    Values := GoValue.strs (c.values.map dataSourceAwsIamPolicyDocumentVarReplacer) }

/-- The statement one declaration is normalised to, field by field: sid and
effect copied, actions decoded, resources decoded and substituted, principals
and conditions built; a field whose declared collection is empty stays unset. -/
def normalizedStatement (c : CfgStmt) : IAMPolicyStatement :=
  { Sid := c.sidOf
    Effect := c.effect
    Actions := if c.actions = [] then GoValue.nil else GoValue.strs c.actions
    NotActions := if c.not_actions = [] then GoValue.nil else GoValue.strs c.not_actions
    Resources :=
      if c.resources = [] then GoValue.nil
      else GoValue.strs (c.resources.map dataSourceAwsIamPolicyDocumentVarReplacer)
    NotResources :=
      if c.not_resources = [] then GoValue.nil
      else GoValue.strs (c.not_resources.map dataSourceAwsIamPolicyDocumentVarReplacer)
    Principals := c.principals.map principalOf
    NotPrincipals := c.not_principals.map principalOf
    Conditions := c.condition.map conditionOf }

/-- The number of statements with an empty sid. -/
def emptySidCount (stmts : List IAMPolicyStatement) : Nat :=
  stmts.countP (fun s => decide (s.Sid = ""))

/-- The statement that a lookup by sid finds: the first one carrying `sid`. -/
def firstWithSid (sid : String) (stmts : List IAMPolicyStatement) : Option IAMPolicyStatement :=
  stmts.find? (fun s => decide (s.Sid = sid))

/-- The number of statements carrying `sid`. -/
def sidCount (sid : String) (stmts : List IAMPolicyStatement) : Nat :=
  stmts.countP (fun s => decide (s.Sid = sid))

/-- A codec for concrete runs: it parses the text `SRC` to a document with one
statement `S1` allowing, the text `OVR` to a document with one statement `S1`
denying with an action, rejects every other text, and serialises every
document to a fixed text. -/
def sampleCodec : Codec :=
  { Unmarshal := fun text =>
      if text = "SRC" then
        Result.ok { Statements := [{ Sid := "S1", Effect := "Allow" }] }
      else if text = "OVR" then
        Result.ok { Statements := [{ Sid := "S1", Effect := "Deny", Actions := GoValue.str "*" }] }
      else Result.error "invalid character"
    MarshalIndent := fun _ => Result.ok "JSON"
    hashcode := fun _ => 42 }

/-- No two statements of the list share a non-empty sid. -/
def DistinctStatementSids (stmts : List IAMPolicyStatement) : Prop :=
  stmts.Pairwise (fun a b => ¬ (a.Sid ≠ "" ∧ a.Sid = b.Sid))

instance (stmts : List IAMPolicyStatement) : Decidable (DistinctStatementSids stmts) := by
  unfold DistinctStatementSids; infer_instance

mutual
/-- A compact rendering of a JSON value as text, used for concrete runs. -/
def JSON.render : JSON → String
  | JSON.null => "null"
  | JSON.str s => "\"" ++ s ++ "\""
  | JSON.arr items => "[" ++ renderItems items ++ "]"
  | JSON.obj members => "\x7b" ++ renderMembers members ++ "\x7d"
  | JSON.other => "?"
/-- The comma-separated rendering of the items of an array. -/
def renderItems : List JSON → String
  | [] => ""
  | [x] => x.render
  | x :: y :: rest => x.render ++ "," ++ renderItems (y :: rest)
/-- The comma-separated rendering of the members of an object. -/
def renderMembers : List (String × JSON) → String
  | [] => ""
  | [(k, v)] => "\"" ++ k ++ "\":" ++ v.render
  | (k, v) :: m :: rest => "\"" ++ k ++ "\":" ++ v.render ++ "," ++ renderMembers (m :: rest)
end

/-- A codec for concrete runs that parses the empty object to the empty
document, rejects every other text, and serialises a document as the compact
rendering of its encoding. -/
def renderingCodec : Codec :=
  { Unmarshal := fun text =>
      if text = "\x7b\x7d" then Result.ok {} else Result.error "invalid character"
    MarshalIndent := fun doc => Result.ok (docToJSON doc).render
    hashcode := fun text => text.length }

/-- The JSON value of a document of version `2012-10-17` with the single
statement that allows `action` on `resource`. -/
def singleStatementJSON (action resource : String) : JSON :=
  JSON.obj
    [("Version", JSON.str "2012-10-17"),
     ("Statement", JSON.arr
        [JSON.obj [("Effect", JSON.str "Allow"), ("Action", JSON.str action),
                   ("Resource", JSON.str resource)]])]

/-- The configuration of the end-to-end scenario: the empty object as source
text, no policy id, no override text, and one statement declaration with effect
`Allow`, one action and one resource. -/
def singleStatementConfig (sid : Option String) (action resource : String) : ResourceData :=
  { source_json := "\x7b\x7d"
    statement := [{ sid := sid, effect := "Allow", actions := [action],
                    resources := [resource] }] }

/-! ## Range loops and the replacer on character sequences -/

theorem replaceVarChars_match (rest : List Char) :
    replaceVarChars ('&' :: '{' :: rest) = '$' :: '{' :: replaceVarChars rest := by
  simp [replaceVarChars]

theorem replaceVarChars_skip (c : Char) (rest : List Char)
    (h : ∀ rest1 : List Char, c = '&' → rest = '{' :: rest1 → False) :
    replaceVarChars (c :: rest) = c :: replaceVarChars rest := by
  rw [replaceVarChars]
  exact h

theorem replaceVarChars_length (l : List Char) :
    (replaceVarChars l).length = l.length := by
  induction l using replaceVarChars.induct with
  | case1 rest ih => rw [replaceVarChars_match]; simp [ih]
  | case2 c rest h ih => rw [replaceVarChars_skip c rest h]; simp [ih]
  | case3 => simp [replaceVarChars]

theorem replaceVarChars_getElem? (l : List Char) :
    ∀ i, (replaceVarChars l)[i]? = if OccursAt l i then some '$' else l[i]? := by
  induction l using replaceVarChars.induct with
  | case1 rest ih =>
    intro i
    rw [replaceVarChars_match]
    match i with
    | 0 => simp [OccursAt]
    | 1 => simp [OccursAt]
    | n + 2 =>
      have := ih n
      simp only [OccursAt, List.getElem?_cons_succ] at this ⊢
      exact this
  | case2 c rest h ih =>
    intro i
    rw [replaceVarChars_skip c rest h]
    match i with
    | 0 =>
      have hn : ¬ OccursAt (c :: rest) 0 := by
        rintro ⟨h1, h2⟩
        simp at h1 h2
        cases rest with
        | nil => simp at h2
        | cons b t =>
          simp at h2
          exact h t h1 (by rw [h2])
      simp [hn]
    | n + 1 =>
      have := ih n
      simp only [OccursAt, List.getElem?_cons_succ] at this ⊢
      exact this
  | case3 => intro i; simp [replaceVarChars, OccursAt]

theorem replaceVarChars_no_occurrence (l : List Char) (i : Nat) :
    ¬ OccursAt (replaceVarChars l) i := by
  rintro ⟨h1, h2⟩
  rw [replaceVarChars_getElem?] at h1 h2
  by_cases hi : OccursAt l i
  · simp [hi] at h1
  · simp only [hi, if_false] at h1
    by_cases hi1 : OccursAt l (i + 1)
    · simp [hi1] at h2
    · simp only [hi1, if_false] at h2
      exact hi ⟨h1, h2⟩

theorem replaceVarChars_of_no_occurrence (l : List Char) (h : ∀ i, ¬ OccursAt l i) :
    replaceVarChars l = l := by
  apply List.ext_getElem?
  intro n
  rw [replaceVarChars_getElem?]
  simp [h n]

theorem take_succ_set {β : Type} (out : List β) (k : Nat) (x : β) (h : k < out.length) :
    (out.set k x).take (k + 1) = out.take k ++ [x] := by
  induction out generalizing k with
  | nil => simp at h
  | cons a t ih =>
    cases k with
    | zero => simp
    | succ n =>
      simp at h
      simp [ih n h]

theorem rangeFor_set {α β : Type} (g : α → β) (l : List α) :
    ∀ (k : Nat) (out : List β), out.length = k + l.length →
      rangeFor (fun i item out => out.set i (g item)) k l out = out.take k ++ l.map g := by
  induction l with
  | nil =>
    intro k out h
    simp at h
    simp [rangeFor, ← h]
  | cons a rest ih =>
    intro k out h
    simp at h
    rw [rangeFor, ih (k + 1) _ (by simp; omega), take_succ_set _ _ _ (by omega)]
    simp

theorem rangeForM_pure {α σ : Type} (body : Nat → α → σ → Result σ) (step : Nat → α → σ → σ)
    (h : ∀ i item st, body i item st = Result.ok (step i item st)) (l : List α) :
    ∀ (k : Nat) (st : σ), rangeForM body k l st = Result.ok (rangeFor step k l st) := by
  induction l with
  | nil => intro k st; simp [rangeForM, rangeFor]
  | cons a rest ih => intro k st; simp [rangeForM, rangeFor, h, ih]

theorem replaceVarsInList_strs (xs : List String) :
    dataSourceAwsIamPolicyDocumentReplaceVarsInList (GoValue.strs xs) =
      Result.ok (GoValue.strs (xs.map dataSourceAwsIamPolicyDocumentVarReplacer)) := by
  simp [dataSourceAwsIamPolicyDocumentReplaceVarsInList, rangeFor_set]

/-! ## The variable substitutor -/

theorem not_hasMarker_iff (s : String) : ¬ HasMarker s ↔ ∀ i, ¬ OccursAt s.data i := by
  constructor
  · intro h i hi
    apply h
    refine ⟨i, ?_, hi⟩
    by_contra hlt
    have : s.data[i]? = none := List.getElem?_eq_none (Nat.le_of_not_lt hlt)
    rw [hi.1] at this
    exact absurd this (by simp)
  · rintro h ⟨i, _, hi⟩
    exact h i hi

theorem replacer_data (s : String) :
    (dataSourceAwsIamPolicyDocumentVarReplacer s).data = replaceVarChars s.data := rfl

theorem replacer_no_marker (s : String) :
    ¬ HasMarker (dataSourceAwsIamPolicyDocumentVarReplacer s) := by
  rw [not_hasMarker_iff]
  intro i
  rw [replacer_data]
  exact replaceVarChars_no_occurrence _ i

theorem replacer_of_no_marker (s : String) (h : ¬ HasMarker s) :
    dataSourceAwsIamPolicyDocumentVarReplacer s = s := by
  apply String.ext
  rw [replacer_data]
  exact replaceVarChars_of_no_occurrence _ ((not_hasMarker_iff s).1 h)

theorem map_replacer_of_no_marker (xs : List String) (h : ∀ x ∈ xs, ¬ HasMarker x) :
    xs.map dataSourceAwsIamPolicyDocumentVarReplacer = xs := by
  induction xs with
  | nil => rfl
  | cons a t ih =>
    simp only [List.map_cons]
    rw [replacer_of_no_marker a (h a (List.mem_cons_self a t)),
      ih (fun x hx => h x (List.mem_cons_of_mem a hx))]

/-- C2: on a string `s` the substitutor returns a string of the same length
whose character at every position `i` is `$` when an occurrence of `&{` starts
at `i` in `s`, and is the character of `s` at `i` otherwise; so every `&{`
becomes `${` and everything else, an existing `${` included, stays in place. -/
theorem replaceVarsInList_string (s : String) :
    ∃ out : String,
      dataSourceAwsIamPolicyDocumentReplaceVarsInList (GoValue.str s)
        = Result.ok (GoValue.str out) ∧
      out.length = s.length ∧
      ∀ i, out.data[i]? = if OccursAt s.data i then some '$' else s.data[i]? := by
  refine ⟨dataSourceAwsIamPolicyDocumentVarReplacer s, rfl, ?_, ?_⟩
  · exact replaceVarChars_length s.data
  · intro i
    rw [replacer_data]
    exact replaceVarChars_getElem? s.data i

/-- C3: on a sequence of strings the substitutor returns a sequence of the same
length whose `i`-th element is the substitution of the `i`-th input element,
for every index `i`. -/
theorem replaceVarsInList_sequence (xs : List String) :
    ∃ out : List String,
      dataSourceAwsIamPolicyDocumentReplaceVarsInList (GoValue.strs xs)
        = Result.ok (GoValue.strs out) ∧
      out.length = xs.length ∧
      ∀ (i : Nat) (x : String), xs[i]? = some x →
        ∃ y, out[i]? = some y ∧
          dataSourceAwsIamPolicyDocumentReplaceVarsInList (GoValue.str x)
            = Result.ok (GoValue.str y) := by
  refine ⟨xs.map dataSourceAwsIamPolicyDocumentVarReplacer, replaceVarsInList_strs xs,
    by simp, ?_⟩
  intro i x hx
  exact ⟨dataSourceAwsIamPolicyDocumentVarReplacer x, by simp [hx], rfl⟩

/-- On `["&{a}", "b", "x&\x7b"]` the result has three elements and the first is
the substitution of `&{a}`. -/
theorem replaceVarsInList_sequence_witness :
    ∃ out : List String,
      dataSourceAwsIamPolicyDocumentReplaceVarsInList (GoValue.strs ["&{a}", "b", "x&\x7b"])
        = Result.ok (GoValue.strs out) ∧
      out.length = 3 ∧
      ∃ y, out[0]? = some y ∧
        dataSourceAwsIamPolicyDocumentReplaceVarsInList (GoValue.str "&{a}")
          = Result.ok (GoValue.str y) := by
  obtain ⟨out, h1, h2, h3⟩ := replaceVarsInList_sequence ["&{a}", "b", "x&\x7b"]
  exact ⟨out, h1, h2, h3 0 "&{a}" rfl⟩

/-- C9: the result of the substitution contains no `&{`, substituting the
result again changes nothing, and a string without `&{` is returned unchanged;
the same holds for every element of a sequence of strings. -/
theorem substitution_idempotent (s : String) (xs : List String) :
    (∃ t, dataSourceAwsIamPolicyDocumentReplaceVarsInList (GoValue.str s)
        = Result.ok (GoValue.str t) ∧ ¬ HasMarker t ∧
      dataSourceAwsIamPolicyDocumentReplaceVarsInList (GoValue.str t)
        = Result.ok (GoValue.str t)) ∧
    (¬ HasMarker s →
      dataSourceAwsIamPolicyDocumentReplaceVarsInList (GoValue.str s)
        = Result.ok (GoValue.str s)) ∧
    (∃ ys, dataSourceAwsIamPolicyDocumentReplaceVarsInList (GoValue.strs xs)
        = Result.ok (GoValue.strs ys) ∧ (∀ y ∈ ys, ¬ HasMarker y) ∧
      dataSourceAwsIamPolicyDocumentReplaceVarsInList (GoValue.strs ys)
        = Result.ok (GoValue.strs ys)) ∧
    ((∀ x ∈ xs, ¬ HasMarker x) →
      dataSourceAwsIamPolicyDocumentReplaceVarsInList (GoValue.strs xs)
        = Result.ok (GoValue.strs xs)) := by
  refine ⟨⟨dataSourceAwsIamPolicyDocumentVarReplacer s, rfl, replacer_no_marker s, ?_⟩, ?_,
    ⟨xs.map dataSourceAwsIamPolicyDocumentVarReplacer, replaceVarsInList_strs xs, ?_, ?_⟩, ?_⟩
  · simp only [dataSourceAwsIamPolicyDocumentReplaceVarsInList]
    rw [replacer_of_no_marker _ (replacer_no_marker s)]
  · intro h
    simp only [dataSourceAwsIamPolicyDocumentReplaceVarsInList]
    rw [replacer_of_no_marker _ h]
  · intro y hy
    obtain ⟨x, _, rfl⟩ := List.mem_map.1 hy
    exact replacer_no_marker x
  · rw [replaceVarsInList_strs, map_replacer_of_no_marker]
    intro y hy
    obtain ⟨x, _, rfl⟩ := List.mem_map.1 hy
    exact replacer_no_marker x
  · intro h
    rw [replaceVarsInList_strs, map_replacer_of_no_marker xs h]

/-- The substitution leaves `a${b}` and the sequence `["${x}", "y"]`, which
hold no `&{`, unchanged. -/
theorem substitution_idempotent_witness :
    dataSourceAwsIamPolicyDocumentReplaceVarsInList (GoValue.str "a${b}")
        = Result.ok (GoValue.str "a${b}") ∧
    dataSourceAwsIamPolicyDocumentReplaceVarsInList (GoValue.strs ["${x}", "y"])
        = Result.ok (GoValue.strs ["${x}", "y"]) :=
  ⟨(substitution_idempotent "a${b}" ["${x}", "y"]).2.1 (by decide),
   (substitution_idempotent "a${b}" ["${x}", "y"]).2.2.2 (by decide)⟩

/-! ## Statement normalisation -/

@[simp] theorem Result.ok_bind {α β : Type} (a : α) (f : α → Result β) :
    (Result.ok a >>= f) = f a := rfl

@[simp] theorem Result.error_bind {α β : Type} (e : String) (f : α → Result β) :
    ((Result.error e : Result α) >>= f) = Result.error e := rfl

@[simp] theorem Result.panic_bind {α β : Type} (e : String) (f : α → Result β) :
    ((Result.panic e : Result α) >>= f) = Result.panic e := rfl

@[simp] theorem Result.pure_eq {α : Type} (a : α) : (pure a : Result α) = Result.ok a := rfl

theorem string_length_pos_iff (s : String) : s.length > 0 ↔ s ≠ "" := by
  constructor
  · intro h hs
    subst hs
    simp at h
  · intro h
    by_contra hn
    apply h
    apply String.ext
    have : s.data.length = 0 := by
      have : s.length = s.data.length := rfl
      omega
    exact List.length_eq_zero.1 this

theorem makePrincipals_eq (l : List CfgPrincipal) :
    dataSourceAwsIamPolicyDocumentMakePrincipals l = Result.ok (l.map principalOf) := by
  unfold dataSourceAwsIamPolicyDocumentMakePrincipals
  simp only []
  rw [rangeForM_pure _ (fun i item out => out.set i (principalOf item))]
  · rw [rangeFor_set principalOf l 0 _ (by simp)]
    simp
  · intro i item st
    simp [iamPolicyDecodeConfigStringList, replaceVarsInList_strs, principalOf]

theorem makeConditions_eq (l : List CfgCondition) :
    dataSourceAwsIamPolicyDocumentMakeConditions l = Result.ok (l.map conditionOf) := by
  unfold dataSourceAwsIamPolicyDocumentMakeConditions
  simp only []
  rw [rangeForM_pure _ (fun i item out => out.set i (conditionOf item))]
  · rw [rangeFor_set conditionOf l 0 _ (by simp)]
    simp
  · intro i item st
    simp [iamPolicyDecodeConfigStringList, replaceVarsInList_strs, conditionOf]

theorem list_length_pos_iff {α : Type} (l : List α) : l.length > 0 ↔ l ≠ [] := by
  cases l <;> simp

/-- The collections of a statement after lines 136 to 164. -/
theorem readCollections_eq (c : CfgStmt) (sid effect : String) :
    readCollections c { Sid := sid, Effect := effect } =
      Result.ok { normalizedStatement c with Sid := sid, Effect := effect } := by
  unfold readCollections normalizedStatement
  simp only [iamPolicyDecodeConfigStringList, replaceVarsInList_strs, makePrincipals_eq,
    makeConditions_eq, list_length_pos_iff]
  by_cases h1 : c.actions = [] <;> by_cases h2 : c.not_actions = [] <;>
  by_cases h3 : c.resources = [] <;> by_cases h4 : c.not_resources = [] <;>
  by_cases h5 : c.principals = [] <;> by_cases h6 : c.not_principals = [] <;>
  by_cases h7 : c.condition = [] <;> simp [h1, h2, h3, h4, h5, h6, h7]

/-- The sid map after a declaration has passed the check. -/
theorem readStatement_error (i : Nat) (c : CfgStmt) (m : List String)
    (stmts : List IAMPolicyStatement) (sid : String) (hs : c.sid = some sid) (hm : sid ∈ m) :
    readStatement i c (m, stmts) = Result.error (duplicateSidError sid) := by
  simp [readStatement, readSid, hs, hm]

theorem readStatement_ok (i : Nat) (c : CfgStmt) (m : List String)
    (stmts : List IAMPolicyStatement) (hm : ∀ sid, c.sid = some sid → sid ∉ m) :
    readStatement i c (m, stmts) =
      Result.ok (if c.sidOf ≠ "" then c.sidOf :: m else m,
        stmts.set i (normalizedStatement c)) := by
  unfold readStatement readSid
  cases hs : c.sid with
  | none =>
    simp only [Result.ok_bind, readCollections_eq, CfgStmt.sidOf, hs]
    simp [normalizedStatement, CfgStmt.sidOf, hs]
  | some sid =>
    have hn := hm sid hs
    simp only [hn, if_false, string_length_pos_iff]
    by_cases he : sid = ""
    · simp [he, readCollections_eq, CfgStmt.sidOf, hs, normalizedStatement]
    · simp [he, readCollections_eq, CfgStmt.sidOf, hs, normalizedStatement]

theorem sid_not_mem_of_sidOf (c : CfgStmt) (m : List String) (h : c.sidOf ∉ m) :
    ∀ sid, c.sid = some sid → sid ∉ m := by
  intro sid hs
  simpa [CfgStmt.sidOf, hs] using h

theorem loop_ok (decls : List CfgStmt) :
    ∀ (k : Nat) (m : List String) (stmts : List IAMPolicyStatement),
      stmts.length = k + decls.length → "" ∉ m → DistinctSids decls →
      (∀ c ∈ decls, c.sidOf ∉ m) →
      ∃ m1, rangeForM readStatement k decls (m, stmts) =
        Result.ok (m1, stmts.take k ++ decls.map normalizedStatement) := by
  induction decls with
  | nil =>
    intro k m stmts hl _ _ _
    simp at hl
    exact ⟨m, by simp [rangeForM, ← hl]⟩
  | cons c rest ih =>
    intro k m stmts hl he hd hm
    simp at hl
    have hd1 := List.pairwise_cons.1 hd
    rw [rangeForM, readStatement_ok k c m stmts
      (sid_not_mem_of_sidOf c m (hm c (List.mem_cons_self c rest)))]
    simp only []
    obtain ⟨m1, h1⟩ := ih (k + 1) (if c.sidOf ≠ "" then c.sidOf :: m else m)
      (stmts.set k (normalizedStatement c)) (by simp; omega)
      (by
        by_cases hc : c.sidOf = ""
        · simpa [hc] using he
        · simp only [ne_eq, hc, not_false_eq_true, if_true, List.mem_cons, not_or]
          exact ⟨fun h => hc h.symm, he⟩)
      hd1.2
      (by
        intro c1 hc1
        have h2 := hm c1 (List.mem_cons_of_mem c hc1)
        by_cases hc : c.sidOf = ""
        · simpa [hc] using h2
        · simp only [ne_eq, hc, not_false_eq_true, if_true, List.mem_cons, not_or]
          refine ⟨?_, h2⟩
          intro heq
          exact hd1.1 c1 hc1 ⟨hc, heq.symm⟩)
    refine ⟨m1, ?_⟩
    rw [h1, take_succ_set _ _ _ (by omega)]
    simp

theorem loop_error (pre : List CfgStmt) (c : CfgStmt) (post : List CfgStmt) (sid : String)
    (hs : c.sid = some sid) :
    ∀ (k : Nat) (m : List String) (stmts : List IAMPolicyStatement),
      "" ∉ m → DistinctSids pre → (∀ c1 ∈ pre, c1.sidOf ∉ m) →
      (sid ∈ m ∨ (sid ≠ "" ∧ ∃ c1 ∈ pre, c1.sidOf = sid)) →
      rangeForM readStatement k (pre ++ c :: post) (m, stmts) =
        Result.error (duplicateSidError sid) := by
  induction pre with
  | nil =>
    intro k m stmts _ _ _ h
    have hm : sid ∈ m := by
      rcases h with h | ⟨_, c1, hc1, _⟩
      · exact h
      · simp at hc1
    simp [rangeForM, readStatement_error k c m stmts sid hs hm]
  | cons a rest ih =>
    intro k m stmts he hd hm h
    have hd1 := List.pairwise_cons.1 hd
    rw [List.cons_append, rangeForM, readStatement_ok k a m stmts
      (sid_not_mem_of_sidOf a m (hm a (List.mem_cons_self a rest)))]
    simp only []
    apply ih
    · by_cases hc : a.sidOf = ""
      · simpa [hc] using he
      · simp only [ne_eq, hc, not_false_eq_true, if_true, List.mem_cons, not_or]
        exact ⟨fun h => hc h.symm, he⟩
    · exact hd1.2
    · intro c1 hc1
      have h2 := hm c1 (List.mem_cons_of_mem a hc1)
      by_cases hc : a.sidOf = ""
      · simpa [hc] using h2
      · simp only [ne_eq, hc, not_false_eq_true, if_true, List.mem_cons, not_or]
        refine ⟨?_, h2⟩
        intro heq
        exact hd1.1 c1 hc1 ⟨hc, heq.symm⟩
    · rcases h with h | ⟨hne, c1, hc1, hc1s⟩
      · left
        by_cases hc : a.sidOf = ""
        · simpa [hc] using h
        · simp [hc, h]
      · rcases List.mem_cons.1 hc1 with rfl | hc1
        · left
          have : c1.sidOf ≠ "" := by rw [hc1s]; exact hne
          simp [hc1s, hne]
        · right
          exact ⟨hne, c1, hc1, hc1s⟩

theorem readStatements_ok (decls : List CfgStmt) (hd : DistinctSids decls) :
    readStatements decls = Result.ok (decls.map normalizedStatement) := by
  obtain ⟨m1, h1⟩ := loop_ok decls 0 [] (List.replicate decls.length {}) (by simp)
    (by simp) hd (by simp)
  simp [readStatements, h1]

theorem readStatements_error (pre : List CfgStmt) (c : CfgStmt) (post : List CfgStmt)
    (sid : String) (hs : c.sid = some sid) (hne : sid ≠ "") (hd : DistinctSids pre)
    (hex : ∃ c1 ∈ pre, c1.sidOf = sid) :
    readStatements (pre ++ c :: post) = Result.error (duplicateSidError sid) := by
  have h1 := loop_error pre c post sid hs 0 []
    (List.replicate (pre ++ c :: post).length {}) (by simp) hd (by simp) (Or.inr ⟨hne, hex⟩)
  simp only [readStatements, h1, Result.error_bind]

theorem first_repeated_sid (decls : List CfgStmt) (h : ¬ DistinctSids decls) :
    ∃ pre c post, decls = pre ++ c :: post ∧ DistinctSids pre ∧
      ∃ c1 ∈ pre, SameSid c1 c := by
  induction decls using List.reverseRecOn with
  | nil => exact absurd List.Pairwise.nil h
  | append_singleton l a ih =>
    by_cases hl : DistinctSids l
    · refine ⟨l, a, [], rfl, hl, ?_⟩
      by_contra hn
      apply h
      unfold DistinctSids
      rw [List.pairwise_append]
      refine ⟨hl, List.pairwise_singleton _ _, ?_⟩
      intro x hx y hy hxy
      simp at hy
      subst hy
      exact hn ⟨x, hx, hxy⟩
    · obtain ⟨pre, c, post, he, hp, hc⟩ := ih hl
      exact ⟨pre, c, post ++ [a], by simp [he], hp, hc⟩

theorem sid_of_sidOf_ne (c : CfgStmt) (h : c.sidOf ≠ "") : c.sid = some c.sidOf := by
  unfold CfgStmt.sidOf at *
  cases hs : c.sid with
  | none => simp [hs] at h
  | some s => simp

theorem sidOf_of_sid (c : CfgStmt) (s : String) (h : c.sid = some s) : c.sidOf = s := by
  simp [CfgStmt.sidOf, h]

theorem sameSid_symm (a b : CfgStmt) (h : SameSid a b) : SameSid b a :=
  ⟨fun hb => h.1 (h.2.trans hb), h.2.symm⟩

theorem distinctSids_at (decls : List CfgStmt) (hd : DistinctSids decls) (i j : Nat)
    (a b : CfgStmt) (hij : i < j) (ha : decls[i]? = some a) (hb : decls[j]? = some b) :
    ¬ SameSid a b := by
  obtain ⟨hi, rfl⟩ := List.getElem?_eq_some.1 ha
  obtain ⟨hj, rfl⟩ := List.getElem?_eq_some.1 hb
  exact List.pairwise_iff_getElem.1 hd i j hi hj hij

theorem not_distinctSids_iff (decls : List CfgStmt) :
    ¬ DistinctSids decls ↔
      ∃ (i j : Nat) (a b : CfgStmt) (s : String), i ≠ j ∧ decls[i]? = some a ∧
        decls[j]? = some b ∧ s ≠ "" ∧ a.sid = some s ∧ b.sid = some s := by
  constructor
  · intro h
    obtain ⟨pre, c, post, he, _, c1, hc1, hs⟩ := first_repeated_sid decls h
    obtain ⟨i, hi⟩ := List.mem_iff_getElem?.1 hc1
    have hlt : i < pre.length := (List.getElem?_eq_some.1 hi).1
    refine ⟨i, pre.length, c1, c, c1.sidOf, by omega, ?_, ?_, hs.1, sid_of_sidOf_ne c1 hs.1, ?_⟩
    · rw [he, List.getElem?_append_left hlt]; exact hi
    · rw [he, List.getElem?_append_right (Nat.le_refl _)]; simp
    · rw [hs.2]; exact sid_of_sidOf_ne c (fun h0 => hs.1 (hs.2.trans h0))
  · rintro ⟨i, j, a, b, s, hij, ha, hb, hs, has, hbs⟩ hd
    have hab : SameSid a b := by
      refine ⟨?_, ?_⟩
      · rw [sidOf_of_sid a s has]; exact hs
      · rw [sidOf_of_sid a s has, sidOf_of_sid b s hbs]
    rcases Nat.lt_or_gt_of_ne hij with h | h
    · exact distinctSids_at decls hd i j a b h ha hb hab
    · exact distinctSids_at decls hd j i b a h hb ha (sameSid_symm a b hab)

/-- C1: the statement loop fails exactly when two declarations at different
positions carry the same non-empty sid; when it fails the error names the sid
of the first declaration whose non-empty sid is carried by an earlier
declaration; and a batch in which every sid is empty or missing never fails. -/
theorem duplicate_sid_failure (decls : List CfgStmt) :
    ((∃ msg, readStatements decls = Result.error msg) ↔
      ∃ (i j : Nat) (a b : CfgStmt) (s : String), i ≠ j ∧ decls[i]? = some a ∧
        decls[j]? = some b ∧ s ≠ "" ∧ a.sid = some s ∧ b.sid = some s) ∧
    (∀ msg, readStatements decls = Result.error msg →
      ∃ pre c post s, decls = pre ++ c :: post ∧ DistinctSids pre ∧ s ≠ "" ∧
        c.sid = some s ∧ (∃ c1 ∈ pre, c1.sid = some s) ∧ msg = duplicateSidError s) ∧
    ((∀ c ∈ decls, c.sid = none ∨ c.sid = some "") →
      ∃ stmts, readStatements decls = Result.ok stmts ∧ stmts.length = decls.length) := by
  have key : ∀ msg, readStatements decls = Result.error msg →
      ∃ pre c post s, decls = pre ++ c :: post ∧ DistinctSids pre ∧ s ≠ "" ∧
        c.sid = some s ∧ (∃ c1 ∈ pre, c1.sid = some s) ∧ msg = duplicateSidError s := by
    intro msg hmsg
    have hnd : ¬ DistinctSids decls := by
      intro hd
      rw [readStatements_ok decls hd] at hmsg
      exact Result.noConfusion hmsg
    obtain ⟨pre, c, post, he, hp, c1, hc1, hs⟩ := first_repeated_sid decls hnd
    have hcs : c.sid = some c1.sidOf := by
      rw [hs.2]; exact sid_of_sidOf_ne c (fun h0 => hs.1 (hs.2.trans h0))
    have herr := readStatements_error pre c post c1.sidOf hcs hs.1 hp ⟨c1, hc1, rfl⟩
    rw [← he, hmsg] at herr
    exact ⟨pre, c, post, c1.sidOf, he, hp, hs.1, hcs, ⟨c1, hc1, sid_of_sidOf_ne c1 hs.1⟩,
      Result.error.inj herr⟩
  refine ⟨⟨?_, ?_⟩, key, ?_⟩
  · rintro ⟨msg, hmsg⟩
    apply (not_distinctSids_iff decls).1
    intro hd
    rw [readStatements_ok decls hd] at hmsg
    exact Result.noConfusion hmsg
  · intro h
    have hnd := (not_distinctSids_iff decls).2 h
    obtain ⟨pre, c, post, he, hp, c1, hc1, hs⟩ := first_repeated_sid decls hnd
    have hcs : c.sid = some c1.sidOf := by
      rw [hs.2]; exact sid_of_sidOf_ne c (fun h0 => hs.1 (hs.2.trans h0))
    exact ⟨_, he ▸ readStatements_error pre c post c1.sidOf hcs hs.1 hp ⟨c1, hc1, rfl⟩⟩
  · intro h
    have hd : DistinctSids decls := by
      by_contra hnd
      obtain ⟨i, j, a, b, s, _, ha, _, hs, has, _⟩ := (not_distinctSids_iff decls).1 hnd
      rcases h a (List.mem_iff_getElem?.2 ⟨i, ha⟩) with h0 | h0
      · rw [h0] at has; exact Option.noConfusion has
      · rw [h0] at has; exact hs (Option.some.inj has).symm
    exact ⟨_, readStatements_ok decls hd, by simp⟩

/-- The batch `S1, (empty), S2, S1, S2` fails on the second `S1`; a batch of
three declarations with empty or missing sid passes. -/
theorem duplicate_sid_failure_witness :
    (∃ pre c post s,
      [({ sid := some "S1" } : CfgStmt), { sid := some "" }, { sid := some "S2" },
        { sid := some "S1", effect := "Deny" }, { sid := some "S2" }] = pre ++ c :: post ∧
      DistinctSids pre ∧ s ≠ "" ∧ c.sid = some s ∧ (∃ c1 ∈ pre, c1.sid = some s) ∧
      "Found duplicate sid (S1). Either remove the sid or ensure the sid is unique across all statements."
        = duplicateSidError s) ∧
    (∃ stmts, readStatements [{ sid := some "" }, { sid := none }, { sid := some "" }]
      = Result.ok stmts ∧ stmts.length = 3) :=
  ⟨(duplicate_sid_failure _).2.1 _ (by decide),
   (duplicate_sid_failure [{ sid := some "" }, { sid := none }, { sid := some "" }]).2.2
     (by decide)⟩

theorem distinctSids_perm (l1 l2 : List CfgStmt) (hp : l1.Perm l2) (hd : DistinctSids l2) :
    DistinctSids l1 :=
  (List.Perm.pairwise_iff (fun {a b} (h : ¬ SameSid a b) hba => h (sameSid_symm b a hba)) hp).2 hd

theorem readStatements_eq_map (decls : List CfgStmt) (stmts : List IAMPolicyStatement)
    (h : readStatements decls = Result.ok stmts) :
    stmts = decls.map normalizedStatement := by
  by_cases hd : DistinctSids decls
  · rw [readStatements_ok decls hd] at h
    exact (Result.ok.inj h).symm
  · obtain ⟨pre, c, post, he, hp, c1, hc1, hs⟩ := first_repeated_sid decls hd
    have hcs : c.sid = some c1.sidOf := by
      rw [hs.2]; exact sid_of_sidOf_ne c (fun h0 => hs.1 (hs.2.trans h0))
    have herr := readStatements_error pre c post c1.sidOf hcs hs.1 hp ⟨c1, hc1, rfl⟩
    rw [← he, h] at herr
    exact Result.noConfusion herr

/-- C6: in every batch that normalises, the statement of a declaration holds
its declared actions and not_actions as decoded, with no substitution, so they
are the declared strings as they are; its resources and not_resources are what
the substitutor returns on the decoded list, the declared strings with the
substitution applied to every element. -/
theorem actions_kept_resources_substituted (decls : List CfgStmt)
    (stmts : List IAMPolicyStatement) (h : readStatements decls = Result.ok stmts)
    (i : Nat) (c : CfgStmt) (hc : decls[i]? = some c) :
    ∃ s, stmts[i]? = some s ∧
      (c.actions ≠ [] →
        s.Actions = iamPolicyDecodeConfigStringList c.actions ∧
        s.Actions = GoValue.strs c.actions) ∧
      (c.not_actions ≠ [] →
        s.NotActions = iamPolicyDecodeConfigStringList c.not_actions ∧
        s.NotActions = GoValue.strs c.not_actions) ∧
      (c.resources ≠ [] →
        dataSourceAwsIamPolicyDocumentReplaceVarsInList
            (iamPolicyDecodeConfigStringList c.resources) = Result.ok s.Resources ∧
        s.Resources =
          GoValue.strs (c.resources.map dataSourceAwsIamPolicyDocumentVarReplacer)) ∧
      (c.not_resources ≠ [] →
        dataSourceAwsIamPolicyDocumentReplaceVarsInList
            (iamPolicyDecodeConfigStringList c.not_resources) = Result.ok s.NotResources ∧
        s.NotResources =
          GoValue.strs (c.not_resources.map dataSourceAwsIamPolicyDocumentVarReplacer)) := by
  rw [readStatements_eq_map decls stmts h]
  refine ⟨normalizedStatement c, by simp [hc], ?_, ?_, ?_, ?_⟩ <;>
    intro hne <;>
    simp [normalizedStatement, hne, iamPolicyDecodeConfigStringList, replaceVarsInList_strs]

/-- A declaration with action `&{a}:Get` and resource `arn:&{b}`: the action
keeps `&{`, the resource gets `${`. -/
theorem actions_kept_resources_substituted_witness :
    ∃ s,
      [({ Effect := "Allow"
          Actions := GoValue.strs ["&{a}:Get"]
          Resources := GoValue.strs ["arn:${b}"] } : IAMPolicyStatement)][0]? = some s ∧
      s.Actions = GoValue.strs ["&{a}:Get"] ∧
      s.Resources = GoValue.strs ["arn:${b}"] := by
  obtain ⟨s, h1, h2, _, h3, _⟩ := actions_kept_resources_substituted
    [{ actions := ["&{a}:Get"], resources := ["arn:&{b}"] }]
    [{ Effect := "Allow"
       Actions := GoValue.strs ["&{a}:Get"]
       Resources := GoValue.strs ["arn:${b}"] }]
    (by decide) 0 { actions := ["&{a}:Get"], resources := ["arn:&{b}"] } rfl
  exact ⟨s, h1, (h2 (by decide)).2, (h3 (by decide)).2⟩

/-- C7: a batch in which no two declarations share a non-empty sid yields one
statement per declaration in input order; the `i`-th statement is what the
`i`-th declaration alone is normalised to, with sid and effect copied; every
reordering of the batch yields the statements in the new order. -/
theorem generated_statements_in_order (decls : List CfgStmt) (hd : DistinctSids decls) :
    ∃ stmts, readStatements decls = Result.ok stmts ∧
      stmts.length = decls.length ∧
      (∀ (i : Nat) (c : CfgStmt), decls[i]? = some c →
        ∃ s, stmts[i]? = some s ∧ readStatements [c] = Result.ok [s] ∧
          s.Sid = c.sidOf ∧ s.Effect = c.effect) ∧
      (∀ decls1 : List CfgStmt, decls1.Perm decls →
        ∃ stmts1, readStatements decls1 = Result.ok stmts1 ∧ stmts1.Perm stmts ∧
          ∀ (i : Nat) (c : CfgStmt), decls1[i]? = some c →
            ∃ s, stmts1[i]? = some s ∧ readStatements [c] = Result.ok [s]) := by
  have single : ∀ c : CfgStmt, readStatements [c] = Result.ok [normalizedStatement c] :=
    fun c => readStatements_ok [c] (List.pairwise_singleton _ _)
  refine ⟨decls.map normalizedStatement, readStatements_ok decls hd, by simp, ?_, ?_⟩
  · intro i c hc
    exact ⟨normalizedStatement c, by simp [hc], single c, rfl, rfl⟩
  · intro decls1 hp
    refine ⟨decls1.map normalizedStatement,
      readStatements_ok decls1 (distinctSids_perm decls1 decls hp hd), hp.map _, ?_⟩
    intro i c hc
    exact ⟨normalizedStatement c, by simp [hc], single c⟩

/-- Two declarations with empty sid yield two statements, the second one being
the normalisation of the second declaration. -/
theorem generated_statements_in_order_witness :
    ∃ stmts, readStatements [{ sid := some "", effect := "Allow" }, { effect := "Deny" }]
        = Result.ok stmts ∧
      stmts.length = 2 ∧
      ∃ s, stmts[1]? = some s ∧ readStatements [{ effect := "Deny" }] = Result.ok [s] ∧
        s.Sid = "" ∧ s.Effect = "Deny" := by
  obtain ⟨stmts, h1, h2, h3, _⟩ := generated_statements_in_order
    [{ sid := some "", effect := "Allow" }, { effect := "Deny" }] (by decide)
  exact ⟨stmts, h1, h2, h3 1 { effect := "Deny" } rfl⟩

/-! ## Merge of statements -/

theorem mergeStatement_nil (st : IAMPolicyStatement) : mergeStatement [] st = [st] := by
  simp [mergeStatement]

theorem mergeStatement_cons (s : IAMPolicyStatement) (rest : List IAMPolicyStatement)
    (st : IAMPolicyStatement) :
    mergeStatement (s :: rest) st =
      if st.Sid ≠ "" ∧ s.Sid = st.Sid then st :: rest else s :: mergeStatement rest st := by
  unfold mergeStatement
  simp only [List.findIdx_cons]
  by_cases he : st.Sid = ""
  · simp [he]
  · by_cases hs : s.Sid = st.Sid
    · simp [he, hs]
    · simp only [ne_eq, he, not_false_eq_true, hs, decide_False, cond_false, List.length_cons,
        Nat.add_lt_add_iff_right, true_and, and_false, if_false]
      by_cases hl : List.findIdx (fun s => decide (s.Sid = st.Sid)) rest < rest.length
      · simp [hl]
      · simp [hl]

theorem mergeStatement_empty_sid (stmts : List IAMPolicyStatement) (st : IAMPolicyStatement)
    (h : st.Sid = "") : mergeStatement stmts st = stmts ++ [st] := by
  simp [mergeStatement, h]

theorem mergeStatement_append (stmts : List IAMPolicyStatement) (st : IAMPolicyStatement)
    (h : ∀ s ∈ stmts, s.Sid ≠ st.Sid) : mergeStatement stmts st = stmts ++ [st] := by
  induction stmts with
  | nil => simp [mergeStatement_nil]
  | cons a t ih =>
    rw [mergeStatement_cons]
    have ha := h a (List.mem_cons_self a t)
    simp only [ha, and_false, if_false, List.cons_append]
    rw [ih (fun s hs => h s (List.mem_cons_of_mem a hs))]

theorem mergeStatement_replace (stmts : List IAMPolicyStatement) (st : IAMPolicyStatement)
    (hne : st.Sid ≠ "") :
    ∀ (i : Nat) (old : IAMPolicyStatement), stmts[i]? = some old → old.Sid = st.Sid →
      (∀ (j : Nat) (s : IAMPolicyStatement), j < i → stmts[j]? = some s → s.Sid ≠ st.Sid) →
      mergeStatement stmts st = stmts.set i st := by
  induction stmts with
  | nil => intro i old h; simp at h
  | cons a t ih =>
    intro i old hi ho hbefore
    rw [mergeStatement_cons]
    cases i with
    | zero =>
      simp at hi
      subst hi
      simp [hne, ho]
    | succ n =>
      have ha : a.Sid ≠ st.Sid := hbefore 0 a (Nat.succ_pos n) (by simp)
      simp only [ha, and_false, if_false, List.set_cons_succ]
      rw [ih n old (by simpa using hi) ho]
      intro j s hj hs
      exact hbefore (j + 1) s (by omega) (by simpa using hs)

theorem mergeStatement_getElem? (stmts : List IAMPolicyStatement) (st : IAMPolicyStatement) :
    ∀ (i : Nat) (s : IAMPolicyStatement), stmts[i]? = some s →
      ∃ s1, (mergeStatement stmts st)[i]? = some s1 ∧ s1.Sid = s.Sid ∧
        (s1 = s ∨ (s1 = st ∧ st.Sid ≠ "")) := by
  induction stmts with
  | nil => intro i s h; simp at h
  | cons a t ih =>
    intro i s hi
    rw [mergeStatement_cons]
    by_cases hc : st.Sid ≠ "" ∧ a.Sid = st.Sid
    · rw [if_pos hc]
      cases i with
      | zero =>
        simp at hi
        subst hi
        exact ⟨st, by simp, hc.2.symm, Or.inr ⟨rfl, hc.1⟩⟩
      | succ n => exact ⟨s, by simpa using hi, rfl, Or.inl rfl⟩
    · rw [if_neg hc]
      cases i with
      | zero =>
        simp at hi
        subst hi
        exact ⟨a, by simp, rfl, Or.inl rfl⟩
      | succ n =>
        obtain ⟨s1, h1, h2, h3⟩ := ih n s (by simpa using hi)
        exact ⟨s1, by simpa using h1, h2, h3⟩

theorem foldl_mergeStatement_getElem? (inc : List IAMPolicyStatement) :
    ∀ (stmts : List IAMPolicyStatement) (i : Nat) (s : IAMPolicyStatement),
      stmts[i]? = some s →
      ∃ s1, (inc.foldl mergeStatement stmts)[i]? = some s1 ∧ s1.Sid = s.Sid ∧
        (s1 = s ∨ (s1 ∈ inc ∧ s.Sid ≠ "")) := by
  induction inc with
  | nil => intro stmts i s hi; exact ⟨s, by simpa using hi, rfl, Or.inl rfl⟩
  | cons st rest ih =>
    intro stmts i s hi
    obtain ⟨s1, h1, h2, h3⟩ := mergeStatement_getElem? stmts st i s hi
    obtain ⟨s2, k1, k2, k3⟩ := ih (mergeStatement stmts st) i s1 h1
    refine ⟨s2, by simpa using k1, k2.trans h2, ?_⟩
    rcases k3 with rfl | ⟨hm, hne⟩
    · rcases h3 with rfl | ⟨rfl, hne⟩
      · exact Or.inl rfl
      · exact Or.inr ⟨List.mem_cons_self _ _, by rw [← h2]; exact hne⟩
    · exact Or.inr ⟨List.mem_cons_of_mem _ hm, by rw [← h2]; exact hne⟩

theorem mergeStatement_countP_empty (stmts : List IAMPolicyStatement) (st : IAMPolicyStatement) :
    (mergeStatement stmts st).countP (fun s => decide (s.Sid = "")) =
      stmts.countP (fun s => decide (s.Sid = "")) + (if st.Sid = "" then 1 else 0) := by
  induction stmts with
  | nil => by_cases h : st.Sid = "" <;> simp [mergeStatement_nil, h]
  | cons a t ih =>
    rw [mergeStatement_cons]
    by_cases hc : st.Sid ≠ "" ∧ a.Sid = st.Sid
    · have ha : a.Sid ≠ "" := by rw [hc.2]; exact hc.1
      rw [if_pos hc]
      simp [List.countP_cons, ha, hc.1]
    · rw [if_neg hc]
      simp only [List.countP_cons, ih]
      omega

theorem foldl_mergeStatement_countP_empty (inc : List IAMPolicyStatement) :
    ∀ stmts : List IAMPolicyStatement,
      (inc.foldl mergeStatement stmts).countP (fun s => decide (s.Sid = "")) =
        stmts.countP (fun s => decide (s.Sid = "")) +
          inc.countP (fun s => decide (s.Sid = "")) := by
  induction inc with
  | nil => intro stmts; simp
  | cons st rest ih =>
    intro stmts
    rw [List.foldl_cons, ih, mergeStatement_countP_empty, List.countP_cons]
    simp only [decide_eq_true_eq]
    omega

/-- C5: Merge takes the incoming statements in order; a statement whose
non-empty sid is carried by a statement of the running list replaces the
first such statement at its position, every other statement is appended; each
position of base keeps its statement or holds an incoming statement with the
same sid.  So `[A, B]` merged with `[C]` is `[A, B, C]`, and `[A, B]` merged
with `[B1, D]`, where `B1` has the sid of `B`, is `[A, B1, D]`. -/
theorem merge_replaces_in_place_or_appends (base incoming : IAMPolicyDoc) :
    (base.Merge incoming).Statements =
      incoming.Statements.foldl mergeStatement base.Statements ∧
    (∀ (stmts : List IAMPolicyStatement) (st : IAMPolicyStatement) (i : Nat)
        (old : IAMPolicyStatement), st.Sid ≠ "" → stmts[i]? = some old → old.Sid = st.Sid →
      (∀ (j : Nat) (s : IAMPolicyStatement), j < i → stmts[j]? = some s → s.Sid ≠ st.Sid) →
      mergeStatement stmts st = stmts.set i st) ∧
    (∀ (stmts : List IAMPolicyStatement) (st : IAMPolicyStatement),
      (st.Sid = "" ∨ ∀ s ∈ stmts, s.Sid ≠ st.Sid) →
      mergeStatement stmts st = stmts ++ [st]) ∧
    (∀ (i : Nat) (s : IAMPolicyStatement), base.Statements[i]? = some s →
      ∃ s1, (base.Merge incoming).Statements[i]? = some s1 ∧ s1.Sid = s.Sid ∧
        (s1 = s ∨ (s1 ∈ incoming.Statements ∧ s.Sid ≠ ""))) ∧
    (∀ A B C : IAMPolicyStatement, base.Statements = [A, B] → incoming.Statements = [C] →
      (C.Sid = "" ∨ (A.Sid ≠ C.Sid ∧ B.Sid ≠ C.Sid)) →
      (base.Merge incoming).Statements = [A, B, C]) ∧
    (∀ A B B1 D : IAMPolicyStatement, base.Statements = [A, B] →
      incoming.Statements = [B1, D] → B1.Sid = B.Sid → B.Sid ≠ "" → A.Sid ≠ B.Sid →
      (D.Sid = "" ∨ (A.Sid ≠ D.Sid ∧ B.Sid ≠ D.Sid)) →
      (base.Merge incoming).Statements = [A, B1, D]) := by
  refine ⟨rfl, ?_, ?_, ?_, ?_, ?_⟩
  · intro stmts st i old hne hi ho hb
    exact mergeStatement_replace stmts st hne i old hi ho hb
  · intro stmts st h
    rcases h with h | h
    · exact mergeStatement_empty_sid stmts st h
    · exact mergeStatement_append stmts st h
  · intro i s hi
    exact foldl_mergeStatement_getElem? incoming.Statements base.Statements i s hi
  · intro A B C hb hi hC
    show incoming.Statements.foldl mergeStatement base.Statements = [A, B, C]
    rw [hb, hi, List.foldl_cons, List.foldl_nil]
    rcases hC with h | h
    · rw [mergeStatement_empty_sid _ _ h]; rfl
    · rw [mergeStatement_append _ _ (by simp [h.1, h.2])]; rfl
  · intro A B B1 D hb hi h1 hB hA hD
    show incoming.Statements.foldl mergeStatement base.Statements = [A, B1, D]
    rw [hb, hi, List.foldl_cons, List.foldl_cons, List.foldl_nil]
    have hrep : mergeStatement [A, B] B1 = [A, B1] := by
      rw [mergeStatement_replace [A, B] B1 (by rw [h1]; exact hB) 1 B rfl h1.symm]
      · rfl
      · intro j s hj hs
        have : j = 0 := by omega
        subst this
        simp at hs
        subst hs
        rw [h1]
        exact hA
    rw [hrep]
    rcases hD with h | h
    · rw [mergeStatement_empty_sid _ _ h]; rfl
    · rw [mergeStatement_append _ _ (by simp [h.1, h1, h.2])]; rfl

/-- Merging `[A, B]` with `[B1, D]`, where `B1` carries the sid of `B` with
another effect, gives `[A, B1, D]`. -/
theorem merge_replaces_in_place_or_appends_witness :
    (IAMPolicyDoc.Merge { Statements := [{ Sid := "A" }, { Sid := "B", Effect := "Allow" }] }
        { Statements := [{ Sid := "B", Effect := "Deny" }, { Sid := "D" }] }).Statements =
      [{ Sid := "A" }, { Sid := "B", Effect := "Deny" }, { Sid := "D" }] :=
  (merge_replaces_in_place_or_appends
    { Statements := [{ Sid := "A" }, { Sid := "B", Effect := "Allow" }] }
    { Statements := [{ Sid := "B", Effect := "Deny" }, { Sid := "D" }] }).2.2.2.2.2
    { Sid := "A" } { Sid := "B", Effect := "Allow" } { Sid := "B", Effect := "Deny" }
    { Sid := "D" } rfl rfl rfl (by decide) (by decide) (by decide)

/-- C10: a statement with an empty sid is never a merge key: it is appended
whatever the running list holds, an empty-sid statement of base stays where it
is, and the merged document has as many empty-sid statements as base and
incoming together. -/
theorem empty_sid_never_merged (base incoming : IAMPolicyDoc) :
    (∀ (stmts : List IAMPolicyStatement) (st : IAMPolicyStatement), st.Sid = "" →
      mergeStatement stmts st = stmts ++ [st]) ∧
    (∀ (i : Nat) (s : IAMPolicyStatement), base.Statements[i]? = some s → s.Sid = "" →
      (base.Merge incoming).Statements[i]? = some s) ∧
    emptySidCount base.Statements + emptySidCount incoming.Statements
      ≤ emptySidCount (base.Merge incoming).Statements ∧
    emptySidCount (base.Merge incoming).Statements
      = emptySidCount base.Statements + emptySidCount incoming.Statements := by
  have hcount := foldl_mergeStatement_countP_empty incoming.Statements base.Statements
  refine ⟨mergeStatement_empty_sid, ?_, Nat.le_of_eq hcount.symm, hcount⟩
  intro i s hi hs
  obtain ⟨s1, h1, _, h3⟩ :=
    foldl_mergeStatement_getElem? incoming.Statements base.Statements i s hi
  rcases h3 with rfl | ⟨_, hne⟩
  · exact h1
  · exact absurd hs hne

/-- Merging `[E]` with `[E, E]`, all three the same empty-sid statement, keeps
the first in place and appends the other two. -/
theorem empty_sid_never_merged_witness :
    mergeStatement [{ Effect := "Allow" }] { Effect := "Allow" }
        = [{ Effect := "Allow" }] ++ [{ Effect := "Allow" }] ∧
    (IAMPolicyDoc.Merge { Statements := [{ Effect := "Allow" }] }
        { Statements := [{ Effect := "Allow" }, { Effect := "Allow" }] }).Statements[0]?
      = some { Effect := "Allow" } ∧
    (IAMPolicyDoc.Merge { Statements := [{ Effect := "Allow" }] }
        { Statements := [{ Effect := "Allow" }, { Effect := "Allow" }] }).Statements.length
      = 3 :=
  ⟨(empty_sid_never_merged {} {}).1 [{ Effect := "Allow" }] { Effect := "Allow" } rfl,
   (empty_sid_never_merged { Statements := [{ Effect := "Allow" }] }
      { Statements := [{ Effect := "Allow" }, { Effect := "Allow" }] }).2.1 0
      { Effect := "Allow" } rfl rfl,
   by decide⟩

/-! ## Precedence in the build and its outputs -/

theorem mergeStatement_firstWithSid (S : String) (hS : S ≠ "")
    (stmts : List IAMPolicyStatement) (st : IAMPolicyStatement) :
    firstWithSid S (mergeStatement stmts st) =
      if st.Sid = S then some st else firstWithSid S stmts := by
  induction stmts with
  | nil =>
    by_cases h : st.Sid = S <;> simp [mergeStatement_nil, firstWithSid, h]
  | cons a t ih =>
    rw [mergeStatement_cons]
    by_cases hc : st.Sid ≠ "" ∧ a.Sid = st.Sid
    · rw [if_pos hc]
      by_cases h : st.Sid = S
      · simp [firstWithSid, h]
      · have ha : a.Sid ≠ S := by rw [hc.2]; exact h
        simp [firstWithSid, h, ha]
    · rw [if_neg hc]
      by_cases ha : a.Sid = S
      · have h : st.Sid ≠ S := by
          intro h
          apply hc
          exact ⟨by rw [h]; exact hS, by rw [ha, h]⟩
        simp [firstWithSid, h, ha]
      · unfold firstWithSid at ih ⊢
        simp only [List.find?_cons, ha, decide_False, ih]

theorem foldl_mergeStatement_firstWithSid_none (S : String) (hS : S ≠ "")
    (inc : List IAMPolicyStatement) (hn : ∀ t ∈ inc, t.Sid ≠ S) :
    ∀ stmts : List IAMPolicyStatement,
      firstWithSid S (inc.foldl mergeStatement stmts) = firstWithSid S stmts := by
  induction inc with
  | nil => intro stmts; rfl
  | cons st rest ih =>
    intro stmts
    rw [List.foldl_cons, ih (fun t ht => hn t (List.mem_cons_of_mem st ht)),
      mergeStatement_firstWithSid S hS, if_neg (hn st (List.mem_cons_self st rest))]

theorem foldl_mergeStatement_firstWithSid_last (S : String) (hS : S ≠ "")
    (pre : List IAMPolicyStatement) (o : IAMPolicyStatement) (post : List IAMPolicyStatement)
    (ho : o.Sid = S) (hn : ∀ t ∈ post, t.Sid ≠ S) (stmts : List IAMPolicyStatement) :
    firstWithSid S ((pre ++ o :: post).foldl mergeStatement stmts) = some o := by
  rw [List.foldl_append, List.foldl_cons, foldl_mergeStatement_firstWithSid_none S hS post hn,
    mergeStatement_firstWithSid S hS, if_pos ho]

theorem exists_last_with_sid (S : String) (l : List IAMPolicyStatement)
    (h : ∃ o ∈ l, o.Sid = S) :
    ∃ pre o post, l = pre ++ o :: post ∧ o.Sid = S ∧ ∀ t ∈ post, t.Sid ≠ S := by
  induction l with
  | nil => obtain ⟨o, ho, _⟩ := h; simp at ho
  | cons a t ih =>
    by_cases ht : ∃ o ∈ t, o.Sid = S
    · obtain ⟨pre, o, post, he, ho, hp⟩ := ih ht
      exact ⟨a :: pre, o, post, by simp [he], ho, hp⟩
    · obtain ⟨o, ho, hs⟩ := h
      rcases List.mem_cons.1 ho with rfl | ho
      · exact ⟨[], o, t, rfl, hs, fun x hx hxs => ht ⟨x, hx, hxs⟩⟩
      · exact absurd ⟨o, ho, hs⟩ ht

theorem mergeStatement_sidCount (S : String) (hS : S ≠ "")
    (stmts : List IAMPolicyStatement) (st : IAMPolicyStatement) :
    sidCount S (mergeStatement stmts st) =
      if st.Sid = S then max 1 (sidCount S stmts) else sidCount S stmts := by
  induction stmts with
  | nil => by_cases h : st.Sid = S <;> simp [mergeStatement_nil, sidCount, h]
  | cons a t ih =>
    rw [mergeStatement_cons]
    by_cases hc : st.Sid ≠ "" ∧ a.Sid = st.Sid
    · rw [if_pos hc]
      by_cases h : st.Sid = S
      · have ha : a.Sid = S := by rw [hc.2]; exact h
        simp only [sidCount, List.countP_cons, h, ha, decide_True, if_true]
        omega
      · have ha : a.Sid ≠ S := by rw [hc.2]; exact h
        simp [sidCount, List.countP_cons, h, ha]
    · rw [if_neg hc]
      unfold sidCount at ih ⊢
      by_cases ha : a.Sid = S
      · have h : st.Sid ≠ S := by
          intro h
          apply hc
          exact ⟨by rw [h]; exact hS, by rw [ha, h]⟩
        simp only [List.countP_cons, ih, h, if_false]
      · by_cases h : st.Sid = S
        · simp only [List.countP_cons, ih, h, ha, if_true, decide_False]
          simp
        · simp only [List.countP_cons, ih, h, if_false]

theorem foldl_mergeStatement_sidCount_le (S : String) (hS : S ≠ "")
    (inc : List IAMPolicyStatement) :
    ∀ stmts : List IAMPolicyStatement, sidCount S stmts ≤ 1 →
      sidCount S (inc.foldl mergeStatement stmts) ≤ 1 := by
  induction inc with
  | nil => intro stmts h; exact h
  | cons st rest ih =>
    intro stmts h
    rw [List.foldl_cons]
    apply ih
    rw [mergeStatement_sidCount S hS]
    by_cases hs : st.Sid = S
    · rw [if_pos hs]; omega
    · rw [if_neg hs]; exact h

theorem distinctSids_unique (decls : List CfgStmt) (hd : DistinctSids decls) :
    ∀ a ∈ decls, ∀ b ∈ decls, SameSid a b → a = b := by
  induction decls with
  | nil => intro a ha; simp at ha
  | cons x t ih =>
    have hd1 := List.pairwise_cons.1 hd
    intro a ha b hb hab
    rcases List.mem_cons.1 ha with hax | hat
    · rcases List.mem_cons.1 hb with hbx | hbt
      · rw [hax, hbx]
      · rw [hax] at hab
        exact absurd hab (hd1.1 b hbt)
    · rcases List.mem_cons.1 hb with hbx | hbt
      · rw [hbx] at hab
        exact absurd (sameSid_symm a x hab) (hd1.1 a hat)
      · exact ih hd1.2 a hat b hbt hab

theorem distinct_of_readStatements_ok (decls : List CfgStmt) (stmts : List IAMPolicyStatement)
    (h : readStatements decls = Result.ok stmts) : DistinctSids decls := by
  by_contra hd
  obtain ⟨pre, c, post, he, hp, c1, hc1, hs⟩ := first_repeated_sid decls hd
  have hcs : c.sid = some c1.sidOf := by
    rw [hs.2]; exact sid_of_sidOf_ne c (fun h0 => hs.1 (hs.2.trans h0))
  have herr := readStatements_error pre c post c1.sidOf hcs hs.1 hp ⟨c1, hc1, rfl⟩
  rw [← he, h] at herr
  exact Result.noConfusion herr

theorem generatedDoc_ok (d : ResourceData) (gen : IAMPolicyDoc)
    (h : generatedDoc d = Result.ok gen) :
    DistinctSids d.statement ∧
      gen = { Version := "2012-10-17", Id := d.policy_id,
              Statements := d.statement.map normalizedStatement } := by
  unfold generatedDoc at h
  by_cases hs : d.statement = []
  · simp only [hs, ne_eq, not_true_eq_false, if_false, Result.pure_eq, Result.ok_bind] at h
    refine ⟨by rw [hs]; exact List.Pairwise.nil, ?_⟩
    rw [← Result.ok.inj h, hs]
    by_cases hp : d.policy_id = "" <;> simp [hp]
  · simp only [ne_eq, hs, not_false_eq_true, if_true] at h
    cases hr : readStatements d.statement with
    | ok stmts =>
      rw [hr] at h
      simp only [Result.ok_bind, Result.pure_eq] at h
      refine ⟨distinct_of_readStatements_ok _ _ hr, ?_⟩
      rw [← Result.ok.inj h, readStatements_eq_map _ _ hr]
      by_cases hp : d.policy_id = "" <;> simp [hp]
    | error e => rw [hr] at h; exact Result.noConfusion h
    | panic e => rw [hr] at h; exact Result.noConfusion h

theorem mergedDocument_ok (c : Codec) (d : ResourceData) (final : IAMPolicyDoc)
    (h : mergedDocument c d = Result.ok final) :
    ∃ src gen,
      (if d.source_json ≠ "" then c.Unmarshal d.source_json else Result.ok {}) = Result.ok src ∧
      generatedDoc d = Result.ok gen ∧
      ((d.override_json = "" ∧ final = src.Merge gen) ∨
        (d.override_json ≠ "" ∧ ∃ ov, c.Unmarshal d.override_json = Result.ok ov ∧
          final = (src.Merge gen).Merge ov)) := by
  unfold mergedDocument at h
  simp only [Result.pure_eq] at h
  by_cases hsj : d.source_json = ""
  · simp only [hsj, ne_eq, not_true_eq_false, if_false, Result.ok_bind] at h ⊢
    cases hgen : generatedDoc d with
    | error e => rw [hgen] at h; exact Result.noConfusion h
    | panic e => rw [hgen] at h; exact Result.noConfusion h
    | ok gen =>
      rw [hgen] at h
      simp only [Result.ok_bind] at h
      refine ⟨{}, gen, rfl, rfl, ?_⟩
      by_cases ho : d.override_json = ""
      · left
        simp only [ho, ne_eq, not_true_eq_false, if_false, Result.ok_bind] at h
        exact ⟨ho, (Result.ok.inj h).symm⟩
      · right
        simp only [ne_eq, ho, not_false_eq_true, if_true] at h
        cases hov : c.Unmarshal d.override_json with
        | error e => rw [hov] at h; exact Result.noConfusion h
        | panic e => rw [hov] at h; exact Result.noConfusion h
        | ok ov =>
          rw [hov] at h
          simp only [Result.ok_bind] at h
          exact ⟨ho, ov, rfl, (Result.ok.inj h).symm⟩
  · simp only [ne_eq, hsj, not_false_eq_true, if_true] at h ⊢
    cases hsrc : c.Unmarshal d.source_json with
    | error e => rw [hsrc] at h; exact Result.noConfusion h
    | panic e => rw [hsrc] at h; exact Result.noConfusion h
    | ok src =>
      rw [hsrc] at h
      simp only [Result.ok_bind] at h
      cases hgen : generatedDoc d with
      | error e => rw [hgen] at h; exact Result.noConfusion h
      | panic e => rw [hgen] at h; exact Result.noConfusion h
      | ok gen =>
        rw [hgen] at h
        simp only [Result.ok_bind] at h
        refine ⟨src, gen, rfl, rfl, ?_⟩
        by_cases ho : d.override_json = ""
        · left
          simp only [ho, ne_eq, not_true_eq_false, if_false, Result.ok_bind] at h
          exact ⟨ho, (Result.ok.inj h).symm⟩
        · right
          simp only [ne_eq, ho, not_false_eq_true, if_true] at h
          cases hov : c.Unmarshal d.override_json with
          | error e => rw [hov] at h; exact Result.noConfusion h
          | panic e => rw [hov] at h; exact Result.noConfusion h
          | ok ov =>
            rw [hov] at h
            simp only [Result.ok_bind] at h
            exact ⟨ho, ov, rfl, (Result.ok.inj h).symm⟩

/-- C4: in the document the build hands to serialisation, for a non-empty sid
`S`: when the override document holds a statement with sid `S`, the statement
found under `S` is the override one (the last such, if the override repeats
`S`); otherwise, when the generated batch holds a statement with sid `S`, the
statement found under `S` is the generated one, whatever the source document
holds; and when the source document holds at most one statement with sid `S`,
so does the final document. -/
theorem build_precedence (c : Codec) (d : ResourceData) (final : IAMPolicyDoc)
    (h : mergedDocument c d = Result.ok final) (S : String) (hS : S ≠ "") :
    (∀ ov, d.override_json ≠ "" → c.Unmarshal d.override_json = Result.ok ov →
      (∃ o ∈ ov.Statements, o.Sid = S) →
      ∃ pre o post, ov.Statements = pre ++ o :: post ∧ o.Sid = S ∧
        (∀ t ∈ post, t.Sid ≠ S) ∧ firstWithSid S final.Statements = some o) ∧
    (∀ gen g,
      (d.override_json = "" ∨
        ∃ ov, c.Unmarshal d.override_json = Result.ok ov ∧ ∀ o ∈ ov.Statements, o.Sid ≠ S) →
      generatedDoc d = Result.ok gen → g ∈ gen.Statements → g.Sid = S →
      firstWithSid S final.Statements = some g) ∧
    (∀ src,
      (if d.source_json ≠ "" then c.Unmarshal d.source_json else Result.ok {})
        = Result.ok src →
      sidCount S src.Statements ≤ 1 → sidCount S final.Statements ≤ 1) := by
  obtain ⟨src, gen, hsrc, hgen, hfin⟩ := mergedDocument_ok c d final h
  refine ⟨?_, ?_, ?_⟩
  · intro ov hne hov hex
    rcases hfin with ⟨he, _⟩ | ⟨_, ov1, hov1, hf⟩
    · exact absurd he hne
    · rw [hov] at hov1
      have : ov = ov1 := Result.ok.inj hov1
      subst this
      obtain ⟨pre, o, post, hsplit, ho, hpost⟩ := exists_last_with_sid S ov.Statements hex
      refine ⟨pre, o, post, hsplit, ho, hpost, ?_⟩
      rw [hf]
      show firstWithSid S (ov.Statements.foldl mergeStatement _) = some o
      rw [hsplit]
      exact foldl_mergeStatement_firstWithSid_last S hS pre o post ho hpost _
  · intro gen1 g hno hgen1 hg hgs
    rw [hgen] at hgen1
    have : gen = gen1 := Result.ok.inj hgen1
    subst this
    have hrun : firstWithSid S final.Statements = firstWithSid S (src.Merge gen).Statements := by
      rcases hfin with ⟨_, hf⟩ | ⟨hne, ov1, hov1, hf⟩
      · rw [hf]
      · rcases hno with he | ⟨ov, hov, hnone⟩
        · exact absurd he hne
        · rw [hov] at hov1
          have : ov = ov1 := Result.ok.inj hov1
          subst this
          rw [hf]
          exact foldl_mergeStatement_firstWithSid_none S hS ov.Statements hnone _
    rw [hrun]
    obtain ⟨hd, hshape⟩ := generatedDoc_ok d gen hgen
    obtain ⟨pre, o, post, hsplit, ho, hpost⟩ :=
      exists_last_with_sid S gen.Statements ⟨g, hg, hgs⟩
    have hog : o = g := by
      have hom : o ∈ gen.Statements := by rw [hsplit]; simp
      rw [hshape] at hom hg
      obtain ⟨co, hco, rfl⟩ := List.mem_map.1 hom
      obtain ⟨cg, hcg, rfl⟩ := List.mem_map.1 hg
      have hss : SameSid co cg := by
        refine ⟨?_, ?_⟩
        · show (normalizedStatement co).Sid ≠ ""
          rw [ho]; exact hS
        · show (normalizedStatement co).Sid = (normalizedStatement cg).Sid
          rw [ho, hgs]
      rw [distinctSids_unique d.statement hd co hco cg hcg hss]
    show firstWithSid S (gen.Statements.foldl mergeStatement src.Statements) = some g
    rw [hsplit, ← hog]
    exact foldl_mergeStatement_firstWithSid_last S hS pre o post ho hpost _
  · intro src1 hsrc1 hcount
    rw [hsrc] at hsrc1
    have : src = src1 := Result.ok.inj hsrc1
    subst this
    have hrun : sidCount S (src.Merge gen).Statements ≤ 1 :=
      foldl_mergeStatement_sidCount_le S hS gen.Statements src.Statements hcount
    rcases hfin with ⟨_, hf⟩ | ⟨_, ov, _, hf⟩
    · rw [hf]; exact hrun
    · rw [hf]
      exact foldl_mergeStatement_sidCount_le S hS ov.Statements _ hrun

/-- Source `S1` allowing and generated `S1` denying: without an override the
statement found under `S1` in the final document is the generated one, and
with the override text `OVR` it is the override one. -/
theorem build_precedence_witness :
    (mergedDocument sampleCodec
        { source_json := "SRC", statement := [{ sid := some "S1", effect := "Deny" }] }
      = Result.ok { Version := "2012-10-17", Statements := [{ Sid := "S1", Effect := "Deny" }] } ∧
    firstWithSid "S1" [({ Sid := "S1", Effect := "Deny" } : IAMPolicyStatement)]
      = some { Sid := "S1", Effect := "Deny" }) ∧
    ∃ pre o post,
      [({ Sid := "S1", Effect := "Deny", Actions := GoValue.str "*" } : IAMPolicyStatement)]
        = pre ++ o :: post ∧ o.Sid = "S1" ∧ (∀ t ∈ post, t.Sid ≠ "S1") ∧
      firstWithSid "S1"
        [({ Sid := "S1", Effect := "Deny", Actions := GoValue.str "*" } : IAMPolicyStatement)]
        = some o :=
  ⟨⟨by decide,
    (build_precedence sampleCodec
      { source_json := "SRC", statement := [{ sid := some "S1", effect := "Deny" }] }
      { Version := "2012-10-17", Statements := [{ Sid := "S1", Effect := "Deny" }] }
      (by decide) "S1" (by decide)).2.1
      { Version := "2012-10-17", Statements := [{ Sid := "S1", Effect := "Deny" }] }
      { Sid := "S1", Effect := "Deny" } (Or.inl rfl) (by decide) (by decide) rfl⟩,
   (build_precedence sampleCodec
      { source_json := "SRC", statement := [{ sid := some "S1", effect := "Deny" }],
        override_json := "OVR" }
      { Version := "2012-10-17"
        Statements := [{ Sid := "S1", Effect := "Deny", Actions := GoValue.str "*" }] }
      (by decide) "S1" (by decide)).1
      { Statements := [{ Sid := "S1", Effect := "Deny", Actions := GoValue.str "*" }] }
      (by decide) (by decide) ⟨_, List.mem_cons_self _ _, rfl⟩⟩

theorem read_of_merged_error (c : Codec) (d : ResourceData) (e : String)
    (h : mergedDocument c d = Result.error e) :
    dataSourceAwsIamPolicyDocumentRead c d = (d, Result.error e) := by
  simp [dataSourceAwsIamPolicyDocumentRead, h]

/-- C8: whenever the build returns an error, the resource data is what it was
before the call; this covers a source text that does not parse, a
duplicate sid, an override text that does not parse and a failing marshal,
each of which returns its error at once.  Only a successful marshal is
followed by the writes of `json` and of the id. -/
theorem no_output_on_error (c : Codec) (d : ResourceData) :
    (∀ e, (dataSourceAwsIamPolicyDocumentRead c d).2 = Result.error e →
      (dataSourceAwsIamPolicyDocumentRead c d).1 = d) ∧
    (∀ e, d.source_json ≠ "" → c.Unmarshal d.source_json = Result.error e →
      dataSourceAwsIamPolicyDocumentRead c d = (d, Result.error e)) ∧
    (∀ e, (d.source_json = "" ∨ ∃ src, c.Unmarshal d.source_json = Result.ok src) →
      readStatements d.statement = Result.error e →
      dataSourceAwsIamPolicyDocumentRead c d = (d, Result.error e)) ∧
    (∀ e gen, (d.source_json = "" ∨ ∃ src, c.Unmarshal d.source_json = Result.ok src) →
      generatedDoc d = Result.ok gen → d.override_json ≠ "" →
      c.Unmarshal d.override_json = Result.error e →
      dataSourceAwsIamPolicyDocumentRead c d = (d, Result.error e)) ∧
    (∀ e mergedDoc, mergedDocument c d = Result.ok mergedDoc →
      c.MarshalIndent mergedDoc = Result.error e →
      dataSourceAwsIamPolicyDocumentRead c d = (d, Result.error e)) ∧
    (∀ mergedDoc jsonString, mergedDocument c d = Result.ok mergedDoc →
      c.MarshalIndent mergedDoc = Result.ok jsonString →
      dataSourceAwsIamPolicyDocumentRead c d =
        ({ d with json := jsonString, id := toString (c.hashcode jsonString) },
          Result.ok ())) := by
  refine ⟨?_, ?_, ?_, ?_, ?_, ?_⟩
  · intro e he
    unfold dataSourceAwsIamPolicyDocumentRead at he ⊢
    cases hm : mergedDocument c d with
    | error e1 => simp
    | panic e1 => simp
    | ok mergedDoc =>
      rw [hm] at he
      simp only at he ⊢
      cases hj : c.MarshalIndent mergedDoc with
      | error e1 => simp
      | panic e1 => simp
      | ok js =>
        rw [hj] at he
        exact Result.noConfusion he
  · intro e hne hu
    apply read_of_merged_error
    simp [mergedDocument, hne, hu]
  · intro e hsrc hr
    apply read_of_merged_error
    have hne : d.statement ≠ [] := by
      intro h0
      rw [h0] at hr
      exact Result.noConfusion hr
    have hgen : generatedDoc d = Result.error e := by
      simp [generatedDoc, hne, hr]
    rcases hsrc with h0 | ⟨src, hs⟩
    · simp [mergedDocument, h0, hgen]
    · by_cases h0 : d.source_json = ""
      · simp [mergedDocument, h0, hgen]
      · simp [mergedDocument, h0, hs, hgen]
  · intro e gen hsrc hgen hne hov
    apply read_of_merged_error
    rcases hsrc with h0 | ⟨src, hs⟩
    · simp [mergedDocument, h0, hgen, hne, hov]
    · by_cases h0 : d.source_json = ""
      · simp [mergedDocument, h0, hgen, hne, hov]
      · simp [mergedDocument, h0, hs, hgen, hne, hov]
  · intro e mergedDoc hm hj
    simp [dataSourceAwsIamPolicyDocumentRead, hm, hj]
  · intro mergedDoc js hm hj
    simp [dataSourceAwsIamPolicyDocumentRead, hm, hj]

/-- A build whose source text does not parse, and one with a repeated sid,
leave the earlier `json` and id of the resource data as they were. -/
theorem no_output_on_error_witness :
    (dataSourceAwsIamPolicyDocumentRead sampleCodec
        { source_json := "x", json := "old", id := "7" }).1
      = { source_json := "x", json := "old", id := "7" } ∧
    dataSourceAwsIamPolicyDocumentRead sampleCodec
        { statement := [{ sid := some "A" }, { sid := some "A" }], json := "old", id := "7" }
      = ({ statement := [{ sid := some "A" }, { sid := some "A" }], json := "old", id := "7" },
          Result.error (duplicateSidError "A")) :=
  ⟨(no_output_on_error sampleCodec { source_json := "x", json := "old", id := "7" }).1
      "invalid character" (by decide),
   (no_output_on_error sampleCodec
      { statement := [{ sid := some "A" }, { sid := some "A" }], json := "old", id := "7" }).2.2.1
      (duplicateSidError "A") (Or.inl rfl) (by decide)⟩

/-! ## Version and id -/

/-- C11, as amended: Merge never overwrites a version that base has: when the
version of base is not empty, the merged document has that version, whatever
the incoming version is; only a base without version takes the incoming
version.  So the version is also kept when the incoming document carries none
or the same one, and a versioned base never ends up without version. -/
theorem merge_version (base incoming : IAMPolicyDoc) :
    (base.Version ≠ "" → (base.Merge incoming).Version = base.Version) ∧
    (base.Version = "" → (base.Merge incoming).Version = incoming.Version) ∧
    (incoming.Version = "" ∨ incoming.Version = base.Version →
      (base.Merge incoming).Version = base.Version) ∧
    (base.Version ≠ "" → (base.Merge incoming).Version ≠ "") := by
  have hkeep : base.Version ≠ "" → (base.Merge incoming).Version = base.Version := by
    intro hb
    show (if base.Version = "" then incoming.Version else base.Version) = base.Version
    rw [if_neg hb]
  have htake : base.Version = "" → (base.Merge incoming).Version = incoming.Version := by
    intro hb
    show (if base.Version = "" then incoming.Version else base.Version) = incoming.Version
    rw [if_pos hb]
  refine ⟨hkeep, htake, ?_, ?_⟩
  · intro h
    by_cases hb : base.Version = ""
    · rw [htake hb]
      rcases h with h | h
      · rw [h, hb]
      · exact h
    · exact hkeep hb
  · intro hb
    rw [hkeep hb]
    exact hb

/-- A base of version `2008-10-17` merged with a document of version
`2012-10-17` keeps `2008-10-17`; a base without version merged with a document
of version `2012-10-17` has version `2012-10-17`; a base of that version merged
with a document without version keeps it. -/
theorem merge_version_witness :
    (IAMPolicyDoc.Merge { Version := "2008-10-17" } { Version := "2012-10-17" }).Version
      = "2008-10-17" ∧
    (IAMPolicyDoc.Merge {} { Version := "2012-10-17" }).Version = "2012-10-17" ∧
    (IAMPolicyDoc.Merge { Version := "2012-10-17" } {}).Version = "2012-10-17" :=
  ⟨(merge_version { Version := "2008-10-17" } { Version := "2012-10-17" }).1 (by decide),
   (merge_version {} { Version := "2012-10-17" }).2.1 rfl,
   (merge_version { Version := "2012-10-17" } {}).2.2.1 (Or.inl rfl)⟩

/-- C11 fails as stated: in the build of the end-to-end scenario the base
document, parsed from the empty object, has no version, the generated document
merged into it has version `2012-10-17`, and the version after the merge is
`2012-10-17`, not the version base had before. -/
theorem merge_version_counterexample :
    renderingCodec.Unmarshal "\x7b\x7d" = Result.ok {} ∧
    mergedDocument renderingCodec
        { source_json := "\x7b\x7d", statement := [{ actions := ["s3:GetObject"] }] }
      = Result.ok (IAMPolicyDoc.Merge {}
          { Version := "2012-10-17"
            Statements := [{ Effect := "Allow", Actions := GoValue.strs ["s3:GetObject"] }] }) ∧
    ¬ ((IAMPolicyDoc.Merge {}
          { Version := "2012-10-17"
            Statements := [{ Effect := "Allow", Actions := GoValue.strs ["s3:GetObject"] }] }).Version
        = ({} : IAMPolicyDoc).Version) := by
  decide

theorem generatedDoc_of_distinct (d : ResourceData) (hd : DistinctSids d.statement) :
    generatedDoc d = Result.ok
      { Version := "2012-10-17", Id := d.policy_id,
        Statements := d.statement.map normalizedStatement } := by
  unfold generatedDoc
  by_cases hs : d.statement = []
  · by_cases hp : d.policy_id = "" <;> simp [hs, hp]
  · by_cases hp : d.policy_id = "" <;> simp [hs, hp, readStatements_ok d.statement hd]

/-- C14: whenever the statements normalise, the generated document has version
`2012-10-17` and the id `policy_id`, which is the empty id when no policy id
was requested; no attribute of the configuration changes the version. -/
theorem generated_version_and_id (d : ResourceData) :
    (∀ gen, generatedDoc d = Result.ok gen →
      gen.Version = "2012-10-17" ∧ gen.Id = d.policy_id ∧
      (d.policy_id = "" → gen.Id = "")) ∧
    (DistinctSids d.statement → ∃ gen, generatedDoc d = Result.ok gen ∧
      gen.Version = "2012-10-17" ∧ gen.Id = d.policy_id) := by
  refine ⟨?_, ?_⟩
  · intro gen h
    obtain ⟨_, hshape⟩ := generatedDoc_ok d gen h
    rw [hshape]
    exact ⟨rfl, rfl, fun hp => hp⟩
  · intro hd
    exact ⟨_, generatedDoc_of_distinct d hd, rfl, rfl⟩

/-- With policy id `P1` and a versioned source text the generated document has
version `2012-10-17` and id `P1`; without a policy id its id is empty. -/
theorem generated_version_and_id_witness :
    (∃ gen, generatedDoc { source_json := "SRC", policy_id := "P1", statement := [{}] }
        = Result.ok gen ∧ gen.Version = "2012-10-17" ∧ gen.Id = "P1") ∧
    (∀ gen, generatedDoc { statement := [{}] } = Result.ok gen →
      gen.Version = "2012-10-17" ∧ gen.Id = "" ∧ ("" = "" → gen.Id = "")) :=
  ⟨(generated_version_and_id
      { source_json := "SRC", policy_id := "P1", statement := [{}] }).2 (by decide),
   (generated_version_and_id { statement := [{}] }).1⟩

/-! ## Builders -/

/-- C15: the condition builder returns one record per raw entry, in order; the
record of entry `i` has its test and variable as they are and as values what
the substitutor returns on the decoded values, every value substituted. -/
theorem makeConditions_records (in_ : List CfgCondition) :
    ∃ out, dataSourceAwsIamPolicyDocumentMakeConditions in_ = Result.ok out ∧
      out.length = in_.length ∧
      ∀ (i : Nat) (item : CfgCondition), in_[i]? = some item →
        ∃ r, out[i]? = some r ∧ r.Test = item.test ∧ r.Variable = item.variable_ ∧
          dataSourceAwsIamPolicyDocumentReplaceVarsInList
            (iamPolicyDecodeConfigStringList item.values) = Result.ok r.Values ∧
          r.Values = GoValue.strs (item.values.map dataSourceAwsIamPolicyDocumentVarReplacer) := by
  refine ⟨in_.map conditionOf, makeConditions_eq in_, by simp, ?_⟩
  intro i item hi
  refine ⟨conditionOf item, by simp [hi], rfl, rfl, ?_, rfl⟩
  simp [iamPolicyDecodeConfigStringList, replaceVarsInList_strs, conditionOf]

/-- An entry whose test, variable and value all hold `&{`: only the value is
substituted. -/
theorem makeConditions_records_witness :
    ∃ out, dataSourceAwsIamPolicyDocumentMakeConditions
        [{ test := "T&{a}", variable_ := "v&{b}", values := ["&{c}"] }] = Result.ok out ∧
      out.length = 1 ∧
      ∃ r, out[0]? = some r ∧ r.Test = "T&{a}" ∧ r.Variable = "v&{b}" ∧
        r.Values = GoValue.strs ["${c}"] := by
  obtain ⟨out, h1, h2, h3⟩ := makeConditions_records
    [{ test := "T&{a}", variable_ := "v&{b}", values := ["&{c}"] }]
  obtain ⟨r, k1, k2, k3, _, k5⟩ :=
    h3 0 { test := "T&{a}", variable_ := "v&{b}", values := ["&{c}"] } rfl
  exact ⟨out, h1, h2, r, k1, k2, k3, by rw [k5]; decide⟩

/-- C16: the principal builder returns one record per raw entry, in order; the
record of entry `i` has its type as it is and as identifiers what the
substitutor returns on the decoded identifiers; a normalised statement takes
its principals and its not_principals from this one builder. -/
theorem makePrincipals_records (in_ : List CfgPrincipal) :
    (∃ out, dataSourceAwsIamPolicyDocumentMakePrincipals in_ = Result.ok out ∧
      out.length = in_.length ∧
      ∀ (i : Nat) (item : CfgPrincipal), in_[i]? = some item →
        ∃ r, out[i]? = some r ∧ r.Type_ = item.type ∧
          dataSourceAwsIamPolicyDocumentReplaceVarsInList
            (iamPolicyDecodeConfigStringList item.identifiers) = Result.ok r.Identifiers ∧
          r.Identifiers =
            GoValue.strs (item.identifiers.map dataSourceAwsIamPolicyDocumentVarReplacer)) ∧
    (∀ (decls : List CfgStmt) (stmts : List IAMPolicyStatement) (i : Nat) (c : CfgStmt),
      readStatements decls = Result.ok stmts → decls[i]? = some c →
      ∃ s, stmts[i]? = some s ∧
        (c.principals = in_ → in_ ≠ [] →
          dataSourceAwsIamPolicyDocumentMakePrincipals in_ = Result.ok s.Principals) ∧
        (c.not_principals = in_ → in_ ≠ [] →
          dataSourceAwsIamPolicyDocumentMakePrincipals in_ = Result.ok s.NotPrincipals)) := by
  refine ⟨⟨in_.map principalOf, makePrincipals_eq in_, by simp, ?_⟩, ?_⟩
  · intro i item hi
    refine ⟨principalOf item, by simp [hi], rfl, ?_, rfl⟩
    simp [iamPolicyDecodeConfigStringList, replaceVarsInList_strs, principalOf]
  · intro decls stmts i c h hc
    rw [readStatements_eq_map decls stmts h]
    refine ⟨normalizedStatement c, by simp [hc], ?_, ?_⟩
    · intro hp _
      rw [makePrincipals_eq, ← hp]
      rfl
    · intro hp _
      rw [makePrincipals_eq, ← hp]
      rfl

/-- An entry of type `AWS` with identifier `arn:&{x}`: the type is kept and
the identifier substituted. -/
theorem makePrincipals_records_witness :
    ∃ out, dataSourceAwsIamPolicyDocumentMakePrincipals
        [{ type := "AWS", identifiers := ["arn:&{x}"] }] = Result.ok out ∧
      out.length = 1 ∧
      ∃ r, out[0]? = some r ∧ r.Type_ = "AWS" ∧ r.Identifiers = GoValue.strs ["arn:${x}"] := by
  obtain ⟨out, h1, h2, h3⟩ := (makePrincipals_records
    [{ type := "AWS", identifiers := ["arn:&{x}"] }]).1
  obtain ⟨r, k1, k2, _, k4⟩ := h3 0 { type := "AWS", identifiers := ["arn:&{x}"] } rfl
  exact ⟨out, h1, h2, r, k1, k2, by rw [k4]; decide⟩

/-! ## Collections of a normalised statement -/

/-- C19: in every batch that normalises, each of the seven collection fields
of a statement is unset when the declared collection of the same name is
empty, and otherwise is built from that collection and from nothing else. -/
theorem collections_set_from_own_field (decls : List CfgStmt)
    (stmts : List IAMPolicyStatement) (h : readStatements decls = Result.ok stmts)
    (i : Nat) (c : CfgStmt) (hc : decls[i]? = some c) :
    ∃ s, stmts[i]? = some s ∧
      (s.Actions = if c.actions = [] then GoValue.nil
        else iamPolicyDecodeConfigStringList c.actions) ∧
      (s.NotActions = if c.not_actions = [] then GoValue.nil
        else iamPolicyDecodeConfigStringList c.not_actions) ∧
      (Result.ok s.Resources = if c.resources = [] then Result.ok GoValue.nil
        else dataSourceAwsIamPolicyDocumentReplaceVarsInList
          (iamPolicyDecodeConfigStringList c.resources)) ∧
      (Result.ok s.NotResources = if c.not_resources = [] then Result.ok GoValue.nil
        else dataSourceAwsIamPolicyDocumentReplaceVarsInList
          (iamPolicyDecodeConfigStringList c.not_resources)) ∧
      (Result.ok s.Principals = if c.principals = [] then Result.ok []
        else dataSourceAwsIamPolicyDocumentMakePrincipals c.principals) ∧
      (Result.ok s.NotPrincipals = if c.not_principals = [] then Result.ok []
        else dataSourceAwsIamPolicyDocumentMakePrincipals c.not_principals) ∧
      (Result.ok s.Conditions = if c.condition = [] then Result.ok []
        else dataSourceAwsIamPolicyDocumentMakeConditions c.condition) := by
  rw [readStatements_eq_map decls stmts h]
  refine ⟨normalizedStatement c, by simp [hc], ?_, ?_, ?_, ?_, ?_, ?_, ?_⟩
  · by_cases h0 : c.actions = [] <;>
      simp [normalizedStatement, h0, iamPolicyDecodeConfigStringList]
  · by_cases h0 : c.not_actions = [] <;>
      simp [normalizedStatement, h0, iamPolicyDecodeConfigStringList]
  · by_cases h0 : c.resources = [] <;>
      simp [normalizedStatement, h0, iamPolicyDecodeConfigStringList, replaceVarsInList_strs]
  · by_cases h0 : c.not_resources = [] <;>
      simp [normalizedStatement, h0, iamPolicyDecodeConfigStringList, replaceVarsInList_strs]
  · by_cases h0 : c.principals = [] <;>
      simp [normalizedStatement, h0, makePrincipals_eq]
  · by_cases h0 : c.not_principals = [] <;>
      simp [normalizedStatement, h0, makePrincipals_eq]
  · by_cases h0 : c.condition = [] <;>
      simp [normalizedStatement, h0, makeConditions_eq]

/-- A declaration with not_actions and resources only: these two fields are
set, each from its own list, and the other five stay unset. -/
theorem collections_set_from_own_field_witness :
    ∃ s, [({ Effect := "Allow"
             NotActions := GoValue.strs ["a", "b"]
             Resources := GoValue.strs ["r"] } : IAMPolicyStatement)][0]? = some s ∧
      s.Actions = GoValue.nil ∧ s.NotActions = GoValue.strs ["a", "b"] ∧
      s.Resources = GoValue.strs ["r"] ∧ s.NotResources = GoValue.nil ∧
      s.Principals = [] ∧ s.NotPrincipals = [] ∧ s.Conditions = [] := by
  obtain ⟨s, h0, h1, h2, h3, h4, h5, h6, h7⟩ := collections_set_from_own_field
    [{ not_actions := ["a", "b"], resources := ["r"] }]
    [{ Effect := "Allow"
       NotActions := GoValue.strs ["a", "b"]
       Resources := GoValue.strs ["r"] }]
    (by decide) 0 { not_actions := ["a", "b"], resources := ["r"] } rfl
  refine ⟨s, h0, h1, h2, ?_, ?_, ?_, ?_, ?_⟩
  · exact (Result.ok.inj h3)
  · exact (Result.ok.inj h4)
  · exact (Result.ok.inj h5)
  · exact (Result.ok.inj h6)
  · exact (Result.ok.inj h7)

/-! ## The panic branch -/

theorem mergedDocument_no_panic (c : Codec) (d : ResourceData)
    (hc : ∀ text msg, c.Unmarshal text ≠ Result.panic msg) (msg : String) :
    mergedDocument c d ≠ Result.panic msg := by
  intro h
  have hgen : ∀ m, generatedDoc d ≠ Result.panic m := by
    intro m hm
    unfold generatedDoc at hm
    by_cases hs : d.statement = []
    · simp [hs] at hm
    · simp only [ne_eq, hs, not_false_eq_true, if_true] at hm
      by_cases hd : DistinctSids d.statement
      · rw [readStatements_ok _ hd] at hm
        simp at hm
      · obtain ⟨pre, c0, post, he, hp, c1, hc1, hs1⟩ := first_repeated_sid d.statement hd
        have hcs : c0.sid = some c1.sidOf := by
          rw [hs1.2]; exact sid_of_sidOf_ne c0 (fun h0 => hs1.1 (hs1.2.trans h0))
        have herr := readStatements_error pre c0 post c1.sidOf hcs hs1.1 hp ⟨c1, hc1, rfl⟩
        rw [← he] at herr
        rw [herr] at hm
        simp at hm
  unfold mergedDocument at h
  simp only [Result.pure_eq] at h
  cases hg : generatedDoc d with
  | panic m => exact hgen m hg
  | error e =>
    rw [hg] at h
    by_cases hsj : d.source_json = ""
    · simp [hsj] at h
    · simp only [ne_eq, hsj, not_false_eq_true, if_true] at h
      cases hsrc : c.Unmarshal d.source_json with
      | panic m => exact hc _ m hsrc
      | error e1 => rw [hsrc] at h; simp at h
      | ok src => rw [hsrc] at h; simp at h
  | ok gen =>
    rw [hg] at h
    by_cases hsj : d.source_json = ""
    · simp only [hsj, ne_eq, not_true_eq_false, if_false, Result.ok_bind] at h
      by_cases ho : d.override_json = ""
      · simp [ho] at h
      · simp only [ne_eq, ho, not_false_eq_true, if_true] at h
        cases hu : c.Unmarshal d.override_json with
        | panic m => exact hc _ m hu
        | error e1 => rw [hu] at h; simp at h
        | ok ov => rw [hu] at h; simp at h
    · simp only [ne_eq, hsj, not_false_eq_true, if_true] at h
      cases hsrc : c.Unmarshal d.source_json with
      | panic m => exact hc _ m hsrc
      | error e1 => rw [hsrc] at h; simp at h
      | ok src =>
        rw [hsrc] at h
        simp only [Result.ok_bind] at h
        by_cases ho : d.override_json = ""
        · simp [ho] at h
        · simp only [ne_eq, ho, not_false_eq_true, if_true] at h
          cases hu : c.Unmarshal d.override_json with
          | panic m => exact hc _ m hu
          | error e1 => rw [hu] at h; simp at h
          | ok ov => rw [hu] at h; simp at h

/-- C18: the substitutor returns a value on every string and on every sequence
of strings, and panics on the other dynamic types only; the decoded list of a
configuration set is a string or a sequence of strings, so the condition builder, the
principal builder and the statement loop never panic, and neither does the
build when the JSON library does not. -/
theorem panic_branch_unreachable :
    (∀ s : String, ∃ out,
      dataSourceAwsIamPolicyDocumentReplaceVarsInList (GoValue.str s)
        = Result.ok (GoValue.str out)) ∧
    (∀ xs : List String, ∃ out,
      dataSourceAwsIamPolicyDocumentReplaceVarsInList (GoValue.strs xs)
        = Result.ok (GoValue.strs out)) ∧
    (∀ (v : GoValue) (msg : String),
      dataSourceAwsIamPolicyDocumentReplaceVarsInList v = Result.panic msg →
      v = GoValue.nil ∨ v = GoValue.other) ∧
    (∀ lI : List String,
      (∃ s, iamPolicyDecodeConfigStringList lI = GoValue.str s) ∨
      (∃ xs, iamPolicyDecodeConfigStringList lI = GoValue.strs xs)) ∧
    (∀ (in_ : List CfgCondition) (msg : String),
      dataSourceAwsIamPolicyDocumentMakeConditions in_ ≠ Result.panic msg) ∧
    (∀ (in_ : List CfgPrincipal) (msg : String),
      dataSourceAwsIamPolicyDocumentMakePrincipals in_ ≠ Result.panic msg) ∧
    (∀ (decls : List CfgStmt) (msg : String), readStatements decls ≠ Result.panic msg) ∧
    (∀ (c : Codec) (d : ResourceData) (msg : String),
      (∀ text m, c.Unmarshal text ≠ Result.panic m) →
      (∀ doc m, c.MarshalIndent doc ≠ Result.panic m) →
      (dataSourceAwsIamPolicyDocumentRead c d).2 ≠ Result.panic msg) := by
  refine ⟨fun s => ⟨_, rfl⟩, fun xs => ⟨_, replaceVarsInList_strs xs⟩, ?_,
    fun lI => Or.inr ⟨lI, rfl⟩, ?_, ?_, ?_, ?_⟩
  · intro v msg h
    cases v with
    | nil => exact Or.inl rfl
    | other => exact Or.inr rfl
    | str s => simp [dataSourceAwsIamPolicyDocumentReplaceVarsInList] at h
    | strs xs => rw [replaceVarsInList_strs] at h; exact Result.noConfusion h
  · intro in_ msg h
    rw [makeConditions_eq] at h
    exact Result.noConfusion h
  · intro in_ msg h
    rw [makePrincipals_eq] at h
    exact Result.noConfusion h
  · intro decls msg h
    by_cases hd : DistinctSids decls
    · rw [readStatements_ok _ hd] at h
      exact Result.noConfusion h
    · obtain ⟨pre, c0, post, he, hp, c1, hc1, hs1⟩ := first_repeated_sid decls hd
      have hcs : c0.sid = some c1.sidOf := by
        rw [hs1.2]; exact sid_of_sidOf_ne c0 (fun h0 => hs1.1 (hs1.2.trans h0))
      have herr := readStatements_error pre c0 post c1.sidOf hcs hs1.1 hp ⟨c1, hc1, rfl⟩
      rw [← he, h] at herr
      exact Result.noConfusion herr
  · intro c d msg hu hm h
    unfold dataSourceAwsIamPolicyDocumentRead at h
    cases hmd : mergedDocument c d with
    | panic m => exact mergedDocument_no_panic c d hu m hmd
    | error e => rw [hmd] at h; simp at h
    | ok mergedDoc =>
      rw [hmd] at h
      simp only at h
      cases hj : c.MarshalIndent mergedDoc with
      | panic m => exact hm _ m hj
      | error e => rw [hj] at h; simp at h
      | ok js => rw [hj] at h; simp at h

/-- A build with resources, principals and a condition, run with a codec that
never panics, does not panic. -/
theorem panic_branch_unreachable_witness :
    (dataSourceAwsIamPolicyDocumentRead sampleCodec
      { statement := [{ resources := ["&{a}"],
                        principals := [{ type := "AWS", identifiers := ["&{b}"] }],
                        condition := [{ test := "T", variable_ := "v", values := ["&{c}"] }] }]
      }).2 ≠ Result.panic "dataSourceAwsIamPolicyDocumentReplaceVarsInList: input not string nor []string" :=
  panic_branch_unreachable.2.2.2.2.2.2.2 sampleCodec _ _
    (by intro text m; simp only [sampleCodec]; split_ifs <;> simp)
    (by intro doc m; simp [sampleCodec])

/-! ## Uniqueness of sids across merges -/

theorem sidCount_le_one_of_distinct (stmts : List IAMPolicyStatement)
    (h : DistinctStatementSids stmts) (S : String) (hS : S ≠ "") : sidCount S stmts ≤ 1 := by
  induction stmts with
  | nil => simp [sidCount]
  | cons a t ih =>
    have h1 := List.pairwise_cons.1 h
    have iht := ih h1.2
    unfold sidCount at iht ⊢
    rw [List.countP_cons]
    by_cases ha : a.Sid = S
    · have hz : List.countP (fun s => decide (s.Sid = S)) t = 0 := by
        rw [List.countP_eq_zero]
        intro b hb hbs
        simp at hbs
        exact h1.1 b hb ⟨by rw [ha]; exact hS, by rw [ha, hbs]⟩
      rw [hz]
      simp [ha]
    · simp [ha, iht]

theorem distinct_of_sidCount_le_one (stmts : List IAMPolicyStatement)
    (h : ∀ S, S ≠ "" → sidCount S stmts ≤ 1) : DistinctStatementSids stmts := by
  unfold DistinctStatementSids
  rw [List.pairwise_iff_forall_sublist]
  intro a b hab hsame
  have hle := List.Sublist.countP_le (fun s => decide (s.Sid = a.Sid)) hab
  have h1 := h a.Sid hsame.1
  unfold sidCount at h1
  have h2 : List.countP (fun s => decide (s.Sid = a.Sid)) [a, b] = 2 := by
    simp [List.countP_cons, hsame.2.symm]
  omega

/-- C17: a merge into a base whose non-empty sids are pairwise distinct gives a
document whose non-empty sids are pairwise distinct, whatever the incoming
document repeats; so the final document of a successful build has pairwise
distinct non-empty sids when the source document has. -/
theorem merge_preserves_distinct_sids :
    (∀ base incoming : IAMPolicyDoc, DistinctStatementSids base.Statements →
      DistinctStatementSids (base.Merge incoming).Statements) ∧
    (∀ (c : Codec) (d : ResourceData) (src final : IAMPolicyDoc),
      (if d.source_json ≠ "" then c.Unmarshal d.source_json else Result.ok {})
        = Result.ok src →
      DistinctStatementSids src.Statements →
      mergedDocument c d = Result.ok final →
      DistinctStatementSids final.Statements ∧
      ∀ (i j : Nat) (a b : IAMPolicyStatement), i ≠ j → final.Statements[i]? = some a →
        final.Statements[j]? = some b → a.Sid ≠ "" → a.Sid ≠ b.Sid) := by
  have step : ∀ base incoming : IAMPolicyDoc, DistinctStatementSids base.Statements →
      DistinctStatementSids (base.Merge incoming).Statements := by
    intro base incoming hb
    apply distinct_of_sidCount_le_one
    intro S hS
    exact foldl_mergeStatement_sidCount_le S hS incoming.Statements base.Statements
      (sidCount_le_one_of_distinct _ hb S hS)
  refine ⟨step, ?_⟩
  intro c d src final hsrc hd hfin
  obtain ⟨src1, gen, hsrc1, _, hcase⟩ := mergedDocument_ok c d final hfin
  rw [hsrc] at hsrc1
  have : src = src1 := Result.ok.inj hsrc1
  subst this
  have hfinal : DistinctStatementSids final.Statements := by
    rcases hcase with ⟨_, hf⟩ | ⟨_, ov, _, hf⟩
    · rw [hf]; exact step src gen hd
    · rw [hf]; exact step _ ov (step src gen hd)
  refine ⟨hfinal, ?_⟩
  intro i j a b hij ha hb hne heq
  obtain ⟨hi, rfl⟩ := List.getElem?_eq_some.1 ha
  obtain ⟨hj, rfl⟩ := List.getElem?_eq_some.1 hb
  rcases Nat.lt_or_gt_of_ne hij with hlt | hlt
  · exact List.pairwise_iff_getElem.1 hfinal i j hi hj hlt ⟨hne, heq⟩
  · exact List.pairwise_iff_getElem.1 hfinal j i hj hi hlt ⟨by rw [← heq]; exact hne, heq.symm⟩

/-- Merging `[A, B]` with an incoming `[C, C1, B1]` that repeats the sid `C` and
carries the sid of `B` gives three statements with distinct sids. -/
theorem merge_preserves_distinct_sids_witness :
    DistinctStatementSids
      (IAMPolicyDoc.Merge { Statements := [{ Sid := "A" }, { Sid := "B" }] }
        { Statements := [{ Sid := "C" }, { Sid := "C", Effect := "Deny" },
                         { Sid := "B", Effect := "Deny" }] }).Statements ∧
    (IAMPolicyDoc.Merge { Statements := [{ Sid := "A" }, { Sid := "B" }] }
        { Statements := [{ Sid := "C" }, { Sid := "C", Effect := "Deny" },
                         { Sid := "B", Effect := "Deny" }] }).Statements.length = 3 :=
  ⟨merge_preserves_distinct_sids.1 { Statements := [{ Sid := "A" }, { Sid := "B" }] }
      { Statements := [{ Sid := "C" }, { Sid := "C", Effect := "Deny" },
                       { Sid := "B", Effect := "Deny" }] } (by decide),
   by decide⟩

/-! ## Serialisation -/

theorem mem_optional_member (cond : Prop) [Decidable cond] (k k1 : String) (v v1 : JSON) :
    (k, v) ∈ (if cond then [] else [(k1, v1)]) ↔ ¬ cond ∧ k = k1 ∧ v = v1 := by
  by_cases h : cond <;> simp [h]

theorem valueToJSON_many (xs : List String) (h : 2 ≤ xs.length) :
    valueToJSON (GoValue.strs xs) = JSON.arr (xs.map JSON.str) := by
  match xs, h with
  | _ :: _ :: _, _ => rfl

/-- C13: a collection with exactly one string is written as that bare string
and a collection with two or more strings as the array of its strings in
stored order; the Action, NotAction, Resource and NotResource members of a
statement, the member of each principal and the member of each condition are
each written by this rule from their own collection. -/
theorem singular_collapse (s : IAMPolicyStatement) :
    (∀ x : String, valueToJSON (GoValue.strs [x]) = JSON.str x ∧
      valueToJSON (GoValue.str x) = JSON.str x) ∧
    (∀ xs : List String, 2 ≤ xs.length →
      valueToJSON (GoValue.strs xs) = JSON.arr (xs.map JSON.str)) ∧
    (∀ v, ("Action", v) ∈ statementMembers s ↔
      s.Actions ≠ GoValue.nil ∧ v = valueToJSON s.Actions) ∧
    (∀ v, ("NotAction", v) ∈ statementMembers s ↔
      s.NotActions ≠ GoValue.nil ∧ v = valueToJSON s.NotActions) ∧
    (∀ v, ("Resource", v) ∈ statementMembers s ↔
      s.Resources ≠ GoValue.nil ∧ v = valueToJSON s.Resources) ∧
    (∀ v, ("NotResource", v) ∈ statementMembers s ↔
      s.NotResources ≠ GoValue.nil ∧ v = valueToJSON s.NotResources) ∧
    (∀ ps : List IAMPolicyStatementPrincipal, 2 ≤ ps.length →
      principalsToJSON ps =
        JSON.obj (ps.map (fun p => (p.Type_, valueToJSON p.Identifiers)))) ∧
    (∀ p : IAMPolicyStatementPrincipal,
      ¬ (p.Type_ = "AWS" ∧
          (p.Identifiers = GoValue.str "*" ∨ p.Identifiers = GoValue.strs ["*"])) →
      principalsToJSON [p] = JSON.obj [(p.Type_, valueToJSON p.Identifiers)]) ∧
    (∀ cs : List IAMPolicyStatementCondition,
      conditionsToJSON cs =
        JSON.obj (cs.map (fun c =>
          (c.Test, JSON.obj [(c.Variable, valueToJSON c.Values)])))) ∧
    (∀ (c : CfgStmt) (r : String), c.resources = [r] →
      ("Resource", JSON.str (dataSourceAwsIamPolicyDocumentVarReplacer r))
        ∈ statementMembers (normalizedStatement c)) ∧
    (∀ (c : CfgStmt) (r1 r2 : String) (rest : List String), c.resources = r1 :: r2 :: rest →
      ("Resource", JSON.arr ((c.resources.map dataSourceAwsIamPolicyDocumentVarReplacer).map
          JSON.str)) ∈ statementMembers (normalizedStatement c)) := by
  have hmem : ∀ (t : IAMPolicyStatement) (k : String) (v : JSON),
      (k, v) ∈ statementMembers t ↔
        ((t.Sid ≠ "" ∧ k = "Sid" ∧ v = JSON.str t.Sid) ∨
         (t.Effect ≠ "" ∧ k = "Effect" ∧ v = JSON.str t.Effect) ∨
         (t.Principals ≠ [] ∧ k = "Principal" ∧ v = principalsToJSON t.Principals) ∨
         (t.NotPrincipals ≠ [] ∧ k = "NotPrincipal" ∧ v = principalsToJSON t.NotPrincipals) ∨
         (t.Actions ≠ GoValue.nil ∧ k = "Action" ∧ v = valueToJSON t.Actions) ∨
         (t.NotActions ≠ GoValue.nil ∧ k = "NotAction" ∧ v = valueToJSON t.NotActions) ∨
         (t.Resources ≠ GoValue.nil ∧ k = "Resource" ∧ v = valueToJSON t.Resources) ∨
         (t.NotResources ≠ GoValue.nil ∧ k = "NotResource" ∧ v = valueToJSON t.NotResources) ∨
         (t.Conditions ≠ [] ∧ k = "Condition" ∧ v = conditionsToJSON t.Conditions)) := by
    intro t k v
    unfold statementMembers
    simp only [List.mem_append, mem_optional_member, or_assoc, ne_eq]
  refine ⟨fun x => ⟨rfl, rfl⟩, valueToJSON_many, ?_, ?_, ?_, ?_, ?_, ?_, fun cs => rfl, ?_, ?_⟩
  · intro v; rw [hmem]; simp
  · intro v; rw [hmem]; simp
  · intro v; rw [hmem]; simp
  · intro v; rw [hmem]; simp
  · intro ps h
    match ps, h with
    | _ :: _ :: _, _ => rfl
  · intro p hp
    simp only [principalsToJSON, if_neg hp, principalToJSON]
  · intro c r hr
    rw [hmem]
    simp [normalizedStatement, hr, valueToJSON]
  · intro c r1 r2 rest hr
    rw [hmem]
    simp [normalizedStatement, hr, valueToJSON]

/-- A statement with one resource and two actions: Resource is the bare
string, Action the array of the two strings. -/
theorem singular_collapse_witness :
    ("Resource", JSON.str "arn:aws:s3:::bucket")
      ∈ statementMembers { Effect := "Allow", Actions := GoValue.strs ["a", "b"]
                           Resources := GoValue.strs ["arn:aws:s3:::bucket"] } ∧
    ("Action", JSON.arr [JSON.str "a", JSON.str "b"])
      ∈ statementMembers { Effect := "Allow", Actions := GoValue.strs ["a", "b"]
                           Resources := GoValue.strs ["arn:aws:s3:::bucket"] } ∧
    valueToJSON (GoValue.strs ["a", "b"]) = JSON.arr (["a", "b"].map JSON.str) :=
  ⟨((singular_collapse { Effect := "Allow", Actions := GoValue.strs ["a", "b"]
                         Resources := GoValue.strs ["arn:aws:s3:::bucket"] }).2.2.2.2.1 _).2
      ⟨by decide, rfl⟩,
   ((singular_collapse { Effect := "Allow", Actions := GoValue.strs ["a", "b"]
                         Resources := GoValue.strs ["arn:aws:s3:::bucket"] }).2.2.1 _).2
      ⟨by decide, rfl⟩,
   (singular_collapse {}).2.1 ["a", "b"] (by decide)⟩

theorem singleStatement_merged (c : Codec) (sid : Option String) (a r : String)
    (hsid : sid = none ∨ sid = some "")
    (hU : c.Unmarshal "\x7b\x7d" = Result.ok {}) :
    mergedDocument c (singleStatementConfig sid a r) =
      Result.ok
        { Version := "2012-10-17", Id := "",
          Statements :=
            [{ Effect := "Allow", Actions := GoValue.strs [a],
               Resources := GoValue.strs [dataSourceAwsIamPolicyDocumentVarReplacer r] }] } := by
  have hgen := generatedDoc_of_distinct (singleStatementConfig sid a r)
    (List.pairwise_singleton _ _)
  have hne : (singleStatementConfig sid a r).source_json ≠ "" := by
    show "\x7b\x7d" ≠ ""
    decide
  have hov : (singleStatementConfig sid a r).override_json = "" := rfl
  have hsrc : c.Unmarshal (singleStatementConfig sid a r).source_json = Result.ok {} := hU
  unfold mergedDocument
  simp only [hne, hov, hsrc, hgen, ne_eq, not_false_eq_true, not_true_eq_false, if_true,
    if_false, Result.ok_bind, Result.pure_eq]
  rcases hsid with h | h <;> subst h <;>
    simp [IAMPolicyDoc.Merge, mergeStatement, singleStatementConfig, normalizedStatement,
      CfgStmt.sidOf, principalOf, conditionOf]

/-- C12, as amended: in the end-to-end scenario the build succeeds and writes
as `json` the serialisation of the document of version `2012-10-17` whose one
statement has effect `Allow`, the action `a` as it is and as resource `r` with
every `&{` replaced by `${`; when `r` holds no `&{` this is the resource `r`
itself. -/
theorem end_to_end (c : Codec) (render : JSON → String) (sid : Option String) (a r : String)
    (hsid : sid = none ∨ sid = some "")
    (hU : c.Unmarshal "\x7b\x7d" = Result.ok {})
    (hM : ∀ doc, c.MarshalIndent doc = Result.ok (render (docToJSON doc))) :
    (dataSourceAwsIamPolicyDocumentRead c (singleStatementConfig sid a r)).2 = Result.ok () ∧
    (dataSourceAwsIamPolicyDocumentRead c (singleStatementConfig sid a r)).1.json =
      render (singleStatementJSON a (dataSourceAwsIamPolicyDocumentVarReplacer r)) ∧
    (¬ HasMarker r →
      (dataSourceAwsIamPolicyDocumentRead c (singleStatementConfig sid a r)).1.json =
        render (singleStatementJSON a r)) := by
  have hm := singleStatement_merged c sid a r hsid hU
  have hjson : (dataSourceAwsIamPolicyDocumentRead c (singleStatementConfig sid a r)).1.json =
      render (singleStatementJSON a (dataSourceAwsIamPolicyDocumentVarReplacer r)) := by
    simp only [dataSourceAwsIamPolicyDocumentRead, hm, hM]
    congr 1
  refine ⟨?_, hjson, ?_⟩
  · simp only [dataSourceAwsIamPolicyDocumentRead, hm, hM]
  · intro hr
    rw [hjson, replacer_of_no_marker r hr]

/-- The scenario of the spec, action `s3:GetObject` on resource
`arn:aws:s3:::b/*`: the build succeeds and `json` is the rendering of that
document. -/
theorem end_to_end_witness :
    (dataSourceAwsIamPolicyDocumentRead renderingCodec
        (singleStatementConfig none "s3:GetObject" "arn:aws:s3:::b/*")).2 = Result.ok () ∧
    (dataSourceAwsIamPolicyDocumentRead renderingCodec
        (singleStatementConfig none "s3:GetObject" "arn:aws:s3:::b/*")).1.json =
      (singleStatementJSON "s3:GetObject" "arn:aws:s3:::b/*").render :=
  ⟨(end_to_end renderingCodec JSON.render none "s3:GetObject" "arn:aws:s3:::b/*"
      (Or.inl rfl) (by decide) (fun _ => rfl)).1,
   (end_to_end renderingCodec JSON.render none "s3:GetObject" "arn:aws:s3:::b/*"
      (Or.inl rfl) (by decide) (fun _ => rfl)).2.2 (by decide)⟩

/-- C12 fails as stated for a resource that holds `&{`: with resource `&{x}`
the `json` output is the document with resource `${x}`, whose text differs
from that of the document with resource `&{x}`. -/
theorem end_to_end_counterexample :
    (dataSourceAwsIamPolicyDocumentRead renderingCodec
        (singleStatementConfig none "s3:GetObject" "&{x}")).1.json =
      (singleStatementJSON "s3:GetObject" "${x}").render ∧
    (dataSourceAwsIamPolicyDocumentRead renderingCodec
        (singleStatementConfig none "s3:GetObject" "&{x}")).1.json ≠
      (singleStatementJSON "s3:GetObject" "&{x}").render ∧
    singleStatementJSON "s3:GetObject" "${x}" ≠ singleStatementJSON "s3:GetObject" "&{x}" := by
  refine ⟨by decide, by decide, ?_⟩
  intro h
  simp [singleStatementJSON] at h

end IamPolicyDocument
